import Mathlib

/-!
Verification of the document-store core of the rust_pure_web repository.

This file gives a shallow embedding, in Lean 4, of the parts of the source
that the checked properties talk about:

* src/db.rs      : the Value / Document / Collection data model, the store
                   engine operations (collection lifecycle, insert, update,
                   delete), the binary codec (write_doc / read_doc /
                   read_value and friends), deserialize, load, and the
                   system-default migrations;
* src/crypto.rs  : ChaCha20 (block function and stream encryption),
                   SHA-256, HMAC-SHA256, PBKDF2, hex encoding and decoding,
                   password hashing and verification;
* src/api/collections.rs : the externally reachable create_collection
                   handler (its name guard and its call into the engine).

Modelling conventions, used consistently below:

* Rust machine integers are modelled as Nat (or Int for i64 values) with
  explicit reductions modulo 2^32 or 2^64 exactly where the source
  truncates or wraps.
* Rust String values are modelled by their UTF-8 byte sequences, of type
  List Nat.  For the ASCII literals appearing in the source the byte
  sequence is the sequence of character codes (asciiStr below).
* Rust HashMap values are modelled as association lists whose keys are
  kept unique by the insert operation (ainsert replaces an existing
  binding in place, like HashMap::insert).  Iteration order of a HashMap
  is arbitrary; no property proved here depends on the order of an
  association list except through lookups.
* Fallible code paths, including Rust panics (out-of-bounds slicing),
  are modelled with Option or Except: none / Except.error stands for a
  panic, which aborts the computation and yields no result state.
* The clock (db.rs now()) is passed as an explicit Int parameter, held
  fixed for the duration of one engine operation, and the random source
  (/dev/urandom) is passed as an explicit byte-list parameter.
* File writes (Database::sync) and realtime broadcasts are modelled as
  observable outputs of an operation: each mutating operation returns,
  besides its return value and the new state, the list of emitted change
  events and a flag recording whether sync (a persistence write) ran.
-/

set_option maxHeartbeats 1000000

/-- Byte strings: lists of naturals, each entry a byte value. -/
abbrev Bytes := List Nat

/-- Rust String values, modelled by their UTF-8 byte sequence. -/
abbrev Str := List Nat

/-- UTF-8 bytes of an ASCII string literal (for ASCII, the byte sequence
is the sequence of character codes). -/
def asciiStr (s : String) : Str := s.data.map Char.toNat

/-- Model of the Value enum of src/db.rs: Null, Bool, Int (i64), Float
(f64, represented by the Nat whose little-endian 8 bytes are the IEEE bit
pattern, since the source only ever moves the 8 bytes around), String,
Array, Object. -/
inductive Value where
  | vnull : Value
  | vbool : Bool → Value
  | vint : Int → Value
  | vfloat : Nat → Value
  | vstr : Str → Value
  | varr : List Value → Value
  | vobj : List (Str × Value) → Value

/-- Model of Document = HashMap of field name to Value (src/db.rs). -/
abbrev Document := List (Str × Value)

/-- Model of Collection = HashMap of document id to Document (src/db.rs). -/
abbrev Collection := List (Str × Document)

/-- Model of Schema (src/db.rs): the list of (field name, type name). -/
abbrev Schema := List (Str × Str)

/-- Lookup in an association list, the model of HashMap::get. -/
def alookup {α : Type} : List (Str × α) → Str → Option α
  | [], _ => none
  | (k', v) :: rest, k => if k' = k then some v else alookup rest k

/-- Insert into an association list, the model of HashMap::insert: replace
the binding in place if the key is present, otherwise add it. -/
def ainsert {α : Type} : List (Str × α) → Str → α → List (Str × α)
  | [], k, v => [(k, v)]
  | (k', v') :: rest, k, v =>
      if k' = k then (k, v) :: rest else (k', v') :: ainsert rest k v

/-- Remove from an association list, the model of HashMap::remove (on the
unique-keys lists maintained by ainsert this removes the one binding). -/
def aremove {α : Type} : List (Str × α) → Str → List (Str × α)
  | [], _ => []
  | (k', v') :: rest, k =>
      if k' = k then aremove rest k else (k', v') :: aremove rest k

/-- Keys of an association list. -/
def akeys {α : Type} (l : List (Str × α)) : List Str := l.map Prod.fst

/-- The reserved field name id. -/
def idKey : Str := asciiStr "id"

/-- The reserved field name created. -/
def createdKey : Str := asciiStr "created"

/-- The reserved field name updated. -/
def updatedKey : Str := asciiStr "updated"

/-- Model of the Database state of src/db.rs: the collection map and the
schema map.  The encryption key is immutable after construction and is
passed explicitly to the load model instead of being stored here. -/
structure DBState where
  collections : List (Str × Collection)
  schemas : List (Str × Schema)

/-- Change events broadcast by src/db.rs broadcast_event, modelled
structurally (the source serializes them to JSON for the realtime hub). -/
inductive DbEvent where
  | collectionCreated : Str → DbEvent
  | collectionDeleted : Str → DbEvent
  | docCreated : Str → Document → Str → DbEvent
  | docUpdated : Str → Document → Str → DbEvent
  | docDeleted : Str → Str → DbEvent

/-- Result of one mutating engine operation: the returned value, the new
state, the emitted change events, and whether sync (the persistence
write) ran. -/
structure MutResult (α : Type) where
  ret : α
  state : DBState
  events : List DbEvent
  synced : Bool

/-- Model of Database::create_collection_internal (src/db.rs lines
119-124): unconditionally insert an empty collection and its schema,
replacing any existing entries of that name. -/
def create_collection_internal (st : DBState) (name : Str) (fields : Schema) : DBState :=
  { collections := ainsert st.collections name []
    schemas := ainsert st.schemas name fields }

/-- Model of the public Database::create_collection (src/db.rs lines
113-117): the internal creation, then sync, then a collection.created
event. -/
def db_create_collection (st : DBState) (name : Str) (fields : Schema) : MutResult Unit :=
  { ret := ()
    state := create_collection_internal st name fields
    events := [DbEvent.collectionCreated name]
    synced := true }

/-- Model of Database::find_one (src/db.rs line 157). -/
def find_one (st : DBState) (c id : Str) : Option Document :=
  (alookup st.collections c).bind fun col => alookup col id

/-- One lowercase hex digit character code, as produced by the format
specifier 02x in src/crypto.rs random_hex. -/
def hex_digit (n : Nat) : Nat := if n < 10 then 48 + n else 87 + n

/-- Model of src/crypto.rs random_hex applied to the drawn random bytes:
each byte becomes two lowercase hex digit characters. -/
def random_hex : Bytes → Str
  | [] => []
  | b :: rest => hex_digit (b / 16 % 16) :: hex_digit (b % 16) :: random_hex rest

/-- Model of Database::insert (src/db.rs lines 140-155).  The 12 random
bytes drawn for the id and the value of now() are explicit parameters.
The source calls now() twice (for created and for updated); both calls
are modelled by the single parameter t, the clock reading during the
operation. -/
def db_insert (st : DBState) (c : Str) (doc : Document) (idBytes : Bytes) (t : Int) :
    MutResult (Option Str) :=
  match alookup st.collections c with
  | none => { ret := none, state := st, events := [], synced := false }
  | some col =>
    let id := random_hex idBytes
    let doc1 :=
      ainsert (ainsert (ainsert doc idKey (Value.vstr id)) createdKey (Value.vint t))
        updatedKey (Value.vint t)
    let st1 : DBState := { st with collections := ainsert st.collections c (ainsert col id doc1) }
    let evs := match find_one st1 c id with
      | some d => [DbEvent.docCreated c d id]
      | none => []
    { ret := some id, state := st1, events := evs, synced := true }

/-- The update loop of Database::update (src/db.rs lines 179-183): insert
every provided field whose key is neither id nor created. -/
def merge_updates (doc : Document) (updates : Document) : Document :=
  updates.foldl
    (fun d kv => if kv.1 ≠ idKey ∧ kv.1 ≠ createdKey then ainsert d kv.1 kv.2 else d) doc

/-- Model of Database::update (src/db.rs lines 175-194). -/
def db_update (st : DBState) (c id : Str) (updates : Document) (t : Int) : MutResult Bool :=
  match alookup st.collections c with
  | none => { ret := false, state := st, events := [], synced := false }
  | some col =>
    match alookup col id with
    | none => { ret := false, state := st, events := [], synced := false }
    | some doc =>
      let doc1 := ainsert (merge_updates doc updates) updatedKey (Value.vint t)
      let st1 : DBState :=
        { st with collections := ainsert st.collections c (ainsert col id doc1) }
      let evs := match find_one st1 c id with
        | some d => [DbEvent.docUpdated c d id]
        | none => []
      { ret := true, state := st1, events := evs, synced := true }

/-- Model of Database::delete (src/db.rs lines 196-207). -/
def db_delete (st : DBState) (c id : Str) : MutResult Bool :=
  match alookup st.collections c with
  | none => { ret := false, state := st, events := [], synced := false }
  | some col =>
    match alookup col id with
    | none => { ret := false, state := st, events := [], synced := false }
    | some _ =>
      { ret := true
        state := { st with collections := ainsert st.collections c (aremove col id) }
        events := [DbEvent.docDeleted c id]
        synced := true }

/-- Model of Database::delete_collection (src/db.rs lines 209-220): names
starting with an underscore (byte 95) are refused before any mutation;
otherwise both maps drop the name, sync runs and the event is emitted
whether or not the name was present. -/
def db_delete_collection (st : DBState) (name : Str) : MutResult Bool :=
  if name.head? = some 95 then { ret := false, state := st, events := [], synced := false }
  else
    { ret := true
      state := { collections := aremove st.collections name, schemas := aremove st.schemas name }
      events := [DbEvent.collectionDeleted name]
      synced := true }

/-- Responses of the create_collection HTTP handler that the checked
property distinguishes. -/
inductive ApiResp where
  | createdResp : ApiResp
  | badRequestResp : ApiResp
deriving DecidableEq

/-- Model of the externally reachable create_collection handler
(src/api/collections.rs lines 26-47) after request authorization and JSON
extraction: name is the extracted name field (the empty string when the
field is missing or not a string) and fields the extracted field list.
The handler rejects empty names and names starting with an underscore,
and otherwise calls Database::create_collection unconditionally. -/
def api_create_collection (st : DBState) (name : Str) (fields : Schema) : MutResult ApiResp :=
  if name = [] ∨ name.head? = some 95 then
    { ret := ApiResp.badRequestResp, state := st, events := [], synced := false }
  else
    let r := db_create_collection st name fields
    { ret := ApiResp.createdResp, state := r.state, events := r.events, synced := r.synced }

/-- Schema of the bootstrap collection named _users (src/db.rs lines 63-68). -/
def users_schema : Schema :=
  [(asciiStr "email", asciiStr "string"), (asciiStr "password", asciiStr "string"),
   (asciiStr "role", asciiStr "string"), (asciiStr "created", asciiStr "int")]

/-- Schema of the bootstrap collection named _sessions (src/db.rs lines 71-75). -/
def sessions_schema : Schema :=
  [(asciiStr "user_id", asciiStr "string"), (asciiStr "token", asciiStr "string"),
   (asciiStr "expires", asciiStr "int")]

/-- Schema of the bootstrap collection named _settings (src/db.rs lines 78-100). -/
def settings_schema : Schema :=
  [(asciiStr "page_title", asciiStr "string"), (asciiStr "meta_description", asciiStr "string"),
   (asciiStr "meta_keywords", asciiStr "string"), (asciiStr "og_title", asciiStr "string"),
   (asciiStr "og_description", asciiStr "string"), (asciiStr "og_image", asciiStr "string"),
   (asciiStr "twitter_card", asciiStr "string"), (asciiStr "canonical_url", asciiStr "string"),
   (asciiStr "nginx_hostname", asciiStr "string"), (asciiStr "nginx_internal_ip", asciiStr "string"),
   (asciiStr "dev_network_name", asciiStr "string"), (asciiStr "dev_network_subnet", asciiStr "string"),
   (asciiStr "dev_ip_base", asciiStr "string"), (asciiStr "prod_network_name", asciiStr "string"),
   (asciiStr "prod_network_subnet", asciiStr "string"), (asciiStr "prod_ip_base", asciiStr "string"),
   (asciiStr "app_port", asciiStr "int"), (asciiStr "dev_port_start", asciiStr "int"),
   (asciiStr "dev_port_end", asciiStr "int"), (asciiStr "prod_port_start", asciiStr "int"),
   (asciiStr "prod_port_end", asciiStr "int")]

/-- Schema of the bootstrap collection named _ports (src/db.rs lines 103-108,
identical to the one recreated by ensure_internal_collections). -/
def ports_schema : Schema :=
  [(asciiStr "project", asciiStr "string"), (asciiStr "dev_port", asciiStr "int"),
   (asciiStr "prod_port", asciiStr "int"), (asciiStr "created", asciiStr "int")]

/-- Model of Database::new (src/db.rs lines 51-111): the bootstrap state,
with the four system collections created through
create_collection_internal.  The derived encryption key is not part of
the state (see the header comment). -/
def dbInit : DBState :=
  create_collection_internal
    (create_collection_internal
      (create_collection_internal
        (create_collection_internal ⟨[], []⟩ (asciiStr "_users") users_schema)
        (asciiStr "_sessions") sessions_schema)
      (asciiStr "_settings") settings_schema)
    (asciiStr "_ports") ports_schema

/-- Little-endian bytes of a Nat truncated to u32, the model of
(n as u32).to_le_bytes() used throughout the codec of src/db.rs. -/
def u32le (n : Nat) : Bytes := [n % 256, n / 256 % 256, n / 2 ^ 16 % 256, n / 2 ^ 24 % 256]

/-- Little-endian bytes of a Nat truncated to u64 (8 bytes). -/
def le8 (n : Nat) : Bytes :=
  [n % 256, n / 256 % 256, n / 2 ^ 16 % 256, n / 2 ^ 24 % 256,
   n / 2 ^ 32 % 256, n / 2 ^ 40 % 256, n / 2 ^ 48 % 256, n / 2 ^ 56 % 256]

/-- The i64 to_le_bytes of src/db.rs write_value: two's complement,
little endian. -/
def i64le (i : Int) : Bytes := le8 (i.emod (2 ^ 64)).toNat

/-- Model of write_string (src/db.rs lines 419-422): u32 length, then the
UTF-8 bytes. -/
def write_string (s : Str) : Bytes := u32le s.length ++ s

mutual

/-- Model of write_value (src/db.rs lines 432-446). -/
def write_value : Value → Bytes
  | .vnull => [0]
  | .vbool b => [1, if b then 1 else 0]
  | .vint i => 2 :: i64le i
  | .vfloat bits => 3 :: le8 bits
  | .vstr s => 4 :: write_string s
  | .varr a => 5 :: (u32le a.length ++ write_values a)
  | .vobj o => 6 :: (u32le o.length ++ write_pairs o)

/-- The element loop of the Array case of write_value. -/
def write_values : List Value → Bytes
  | [] => []
  | v :: rest => write_value v ++ write_values rest

/-- The key/value loop of write_doc (src/db.rs lines 424-430), shared with
the Object case of write_value. -/
def write_pairs : List (Str × Value) → Bytes
  | [] => []
  | (k, v) :: rest => write_string k ++ write_value v ++ write_pairs rest

end

/-- Model of write_doc (src/db.rs lines 424-430): u32 entry count, then
the key/value pairs in iteration order. -/
def write_doc (d : Document) : Bytes := u32le d.length ++ write_pairs d

/-- Model of read_u32 (src/db.rs lines 454-458) in consuming style: the
source panics when fewer than 4 bytes remain (out-of-bounds slice), which
is the none case here. -/
def read_u32 : Bytes → Option (Nat × Bytes)
  | b0 :: b1 :: b2 :: b3 :: rest => some (b0 + 256 * b1 + 2 ^ 16 * b2 + 2 ^ 24 * b3, rest)
  | _ => none

/-- The u64 little-endian read used for the Int and Float payloads of
read_value; fewer than 8 remaining bytes is a panic (none). -/
def read_le8 : Bytes → Option (Nat × Bytes)
  | b0 :: b1 :: b2 :: b3 :: b4 :: b5 :: b6 :: b7 :: rest =>
      some (b0 + 256 * b1 + 2 ^ 16 * b2 + 2 ^ 24 * b3 + 2 ^ 32 * b4 + 2 ^ 40 * b5
        + 2 ^ 48 * b6 + 2 ^ 56 * b7, rest)
  | _ => none

/-- Interpretation of a u64 bit pattern as an i64 (two's complement), the
effect of i64::from_le_bytes in read_value. -/
def decode_i64 (n : Nat) : Int := if n < 2 ^ 63 then (n : Int) else (n : Int) - 2 ^ 64

/-- Model of read_string (src/db.rs lines 460-465): u32 length, then that
many bytes; reading past the end of the buffer is a panic (none).  On the
buffers produced by write_string the bytes are the valid UTF-8 encoding
of the original string, on which String::from_utf8_lossy is the
identity. -/
def read_string (data : Bytes) : Option (Str × Bytes) :=
  match read_u32 data with
  | none => none
  | some (len, rest) =>
      if len ≤ rest.length then some (rest.take len, rest.drop len) else none

mutual

/-- Model of read_value (src/db.rs lines 478-496).  The source recursion
is bounded by the input, because every recursive call happens after at
least the tag byte of the enclosing value has been consumed; here the
nesting depth is bounded by an explicit fuel parameter, and the top-level
entry points pass a fuel larger than the buffer length, which the actual
recursion depth never reaches.  Unknown tags yield Null after consuming
only the tag byte, as in the source. -/
def read_value : Nat → Bytes → Option (Value × Bytes)
  | _, [] => none
  | _, 0 :: rest => some (Value.vnull, rest)
  | _, [1] => none
  | _, 1 :: b :: rest => some (Value.vbool (b != 0), rest)
  | _, 2 :: rest =>
      match read_le8 rest with
      | none => none
      | some (n, r) => some (Value.vint (decode_i64 n), r)
  | _, 3 :: rest =>
      match read_le8 rest with
      | none => none
      | some (n, r) => some (Value.vfloat n, r)
  | _, 4 :: rest =>
      match read_string rest with
      | none => none
      | some (s, r) => some (Value.vstr s, r)
  | 0, 5 :: _ => none
  | fuel + 1, 5 :: rest =>
      match read_u32 rest with
      | none => none
      | some (count, r1) =>
          match read_values fuel count r1 with
          | none => none
          | some (vs, r2) => some (Value.varr vs, r2)
  | 0, 6 :: _ => none
  | fuel + 1, 6 :: rest =>
      match read_u32 rest with
      | none => none
      | some (count, r1) =>
          match read_pairs fuel count r1 with
          | none => none
          | some (ps, r2) => some (Value.vobj ps, r2)
  | _, _ :: rest => some (Value.vnull, rest)
termination_by fuel _ => (fuel, 0)

/-- The element loop of the Array case of read_value. -/
def read_values : Nat → Nat → Bytes → Option (List Value × Bytes)
  | _, 0, data => some ([], data)
  | fuel, count + 1, data =>
      match read_value fuel data with
      | none => none
      | some (v, r1) =>
          match read_values fuel count r1 with
          | none => none
          | some (vs, r2) => some (v :: vs, r2)
termination_by fuel count _ => (fuel, count + 1)

/-- The key/value loop of read_doc (src/db.rs lines 467-476), shared with
the Object case of read_value.  The source inserts the pairs into a fresh
HashMap in read order; the model returns them as a list in read order,
which determines that map (the buffers written by write_doc from a
HashMap never contain a duplicate key). -/
def read_pairs : Nat → Nat → Bytes → Option (List (Str × Value) × Bytes)
  | _, 0, data => some ([], data)
  | fuel, count + 1, data =>
      match read_string data with
      | none => none
      | some (k, r1) =>
          match read_value fuel r1 with
          | none => none
          | some (v, r2) =>
              match read_pairs fuel count r2 with
              | none => none
              | some (ps, r3) => some ((k, v) :: ps, r3)
termination_by fuel count _ => (fuel, count + 1)

end

/-- Model of read_doc (src/db.rs lines 467-476). -/
def read_doc (fuel : Nat) (data : Bytes) : Option (Document × Bytes) :=
  match read_u32 data with
  | none => none
  | some (count, rest) => read_pairs fuel count rest

/-- Decoding a byte buffer as one document from position 0, as
deserialize does for each stored document.  The fuel is one more than the
buffer length, which the nesting depth of the source recursion never
reaches (every nesting level consumes at least one byte). -/
def decode_doc (data : Bytes) : Option (Document × Bytes) :=
  read_doc (data.length + 1) data

/-- Addition on u32, the model of u32::wrapping_add. -/
def add32 (a b : Nat) : Nat := (a + b) % 2 ^ 32

/-- Model of u32::rotate_left. -/
def rotl32 (x n : Nat) : Nat :=
  ((x % 2 ^ 32) <<< n) % 2 ^ 32 ||| (x % 2 ^ 32) >>> (32 - n)

/-- Model of u32::rotate_right. -/
def rotr32 (x n : Nat) : Nat :=
  (x % 2 ^ 32) >>> n ||| ((x % 2 ^ 32) <<< (32 - n)) % 2 ^ 32

/-- A u32 read little-endian from four consecutive bytes of a buffer, the
u32::from_le_bytes calls seeding the ChaCha20 state. -/
def word_le (bs : Bytes) (i : Nat) : Nat :=
  bs.getD (4 * i) 0 % 256 + 256 * (bs.getD (4 * i + 1) 0 % 256)
    + 2 ^ 16 * (bs.getD (4 * i + 2) 0 % 256) + 2 ^ 24 * (bs.getD (4 * i + 3) 0 % 256)

/-- Model of quarter_round (src/crypto.rs lines 119-124), acting on the
16-word state represented as a list. -/
def qround (s : List Nat) (a b c d : Nat) : List Nat :=
  let s := s.set a (add32 (s.getD a 0) (s.getD b 0))
  let s := s.set d (Nat.xor (s.getD d 0) (s.getD a 0))
  let s := s.set d (rotl32 (s.getD d 0) 16)
  let s := s.set c (add32 (s.getD c 0) (s.getD d 0))
  let s := s.set b (Nat.xor (s.getD b 0) (s.getD c 0))
  let s := s.set b (rotl32 (s.getD b 0) 12)
  let s := s.set a (add32 (s.getD a 0) (s.getD b 0))
  let s := s.set d (Nat.xor (s.getD d 0) (s.getD a 0))
  let s := s.set d (rotl32 (s.getD d 0) 8)
  let s := s.set c (add32 (s.getD c 0) (s.getD d 0))
  let s := s.set b (Nat.xor (s.getD b 0) (s.getD c 0))
  let s := s.set b (rotl32 (s.getD b 0) 7)
  s

/-- The initial ChaCha20 state (src/crypto.rs lines 128-142): the four
constant words (the bytes of expand 32-byte k, here in decimal:
0x61707865, 0x3320646e, 0x79622d32, 0x6b206574), eight key words, the
block counter, three nonce words. -/
def chacha_init (key : Bytes) (counter : Nat) (nonce : Bytes) : List Nat :=
  [1634760805, 857760878, 2036477234, 1797285236,
   word_le key 0, word_le key 1, word_le key 2, word_le key 3,
   word_le key 4, word_le key 5, word_le key 6, word_le key 7,
   counter % 2 ^ 32,
   word_le nonce 0, word_le nonce 1, word_le nonce 2]

/-- One double round: the four column quarter rounds then the four
diagonal quarter rounds (the body of the 0..10 loop in chacha20_block). -/
def double_round (s : List Nat) : List Nat :=
  qround (qround (qround (qround (qround (qround (qround (qround
    s 0 4 8 12) 1 5 9 13) 2 6 10 14) 3 7 11 15)
    0 5 10 15) 1 6 11 12) 2 7 8 13) 3 4 9 14

/-- Ten double rounds. -/
def chacha_rounds : Nat → List Nat → List Nat
  | 0, s => s
  | n + 1, s => chacha_rounds n (double_round s)

/-- The output serialization of chacha20_block (src/crypto.rs lines
156-161): each of the 16 words of the final state is added to the
matching initial word and written little-endian. -/
def block_out (final initial : List Nat) : Bytes :=
  u32le (add32 (final.getD 0 0) (initial.getD 0 0)) ++
  u32le (add32 (final.getD 1 0) (initial.getD 1 0)) ++
  u32le (add32 (final.getD 2 0) (initial.getD 2 0)) ++
  u32le (add32 (final.getD 3 0) (initial.getD 3 0)) ++
  u32le (add32 (final.getD 4 0) (initial.getD 4 0)) ++
  u32le (add32 (final.getD 5 0) (initial.getD 5 0)) ++
  u32le (add32 (final.getD 6 0) (initial.getD 6 0)) ++
  u32le (add32 (final.getD 7 0) (initial.getD 7 0)) ++
  u32le (add32 (final.getD 8 0) (initial.getD 8 0)) ++
  u32le (add32 (final.getD 9 0) (initial.getD 9 0)) ++
  u32le (add32 (final.getD 10 0) (initial.getD 10 0)) ++
  u32le (add32 (final.getD 11 0) (initial.getD 11 0)) ++
  u32le (add32 (final.getD 12 0) (initial.getD 12 0)) ++
  u32le (add32 (final.getD 13 0) (initial.getD 13 0)) ++
  u32le (add32 (final.getD 14 0) (initial.getD 14 0)) ++
  u32le (add32 (final.getD 15 0) (initial.getD 15 0))

/-- Model of chacha20_block (src/crypto.rs lines 127-162): 64 keystream
bytes for one block counter value. -/
def chacha20_block (key : Bytes) (counter : Nat) (nonce : Bytes) : Bytes :=
  let initial := chacha_init key counter nonce
  block_out (chacha_rounds 10 initial) initial

/-- The chunk loop of chacha20 (src/crypto.rs lines 165-174): the i-th
64-byte chunk is XORed with the keystream block for counter i (i as u32,
hence the modulus). -/
def chacha20_from (key nonce : Bytes) : Nat → Bytes → Bytes
  | _, [] => []
  | i, b :: rest =>
      let chunk := (b :: rest).take 64
      let ks := chacha20_block key (i % 2 ^ 32) nonce
      List.zipWith Nat.xor chunk ks ++ chacha20_from key nonce (i + 1) ((b :: rest).drop 64)
termination_by _ data => data.length
decreasing_by simp [List.length_drop]; omega

/-- Model of chacha20 (src/crypto.rs lines 165-174): encrypt or decrypt
data under key and nonce with the block counter starting at 0. -/
def chacha20 (key nonce data : Bytes) : Bytes := chacha20_from key nonce 0 data

/-- Big-endian bytes of a Nat truncated to u32. -/
def be4 (n : Nat) : Bytes := [n / 2 ^ 24 % 256, n / 2 ^ 16 % 256, n / 256 % 256, n % 256]

/-- Big-endian bytes of a Nat truncated to u64. -/
def be8 (n : Nat) : Bytes :=
  [n / 2 ^ 56 % 256, n / 2 ^ 48 % 256, n / 2 ^ 40 % 256, n / 2 ^ 32 % 256,
   n / 2 ^ 24 % 256, n / 2 ^ 16 % 256, n / 256 % 256, n % 256]

/-- A u32 read big-endian from four consecutive bytes of a buffer, the
u32::from_be_bytes in the SHA-256 message schedule. -/
def word_be (bs : Bytes) (i : Nat) : Nat :=
  2 ^ 24 * (bs.getD (4 * i) 0 % 256) + 2 ^ 16 * (bs.getD (4 * i + 1) 0 % 256)
    + 256 * (bs.getD (4 * i + 2) 0 % 256) + bs.getD (4 * i + 3) 0 % 256

/-- The SHA-256 round constants K (src/crypto.rs lines 8-17), written in
decimal: entry 0 is 0x428a2f98 and so on, exactly the FIPS 180-4 table. -/
def k256 : List Nat :=
  [1116352408, 1899447441, 3049323471, 3921009573,
   961987163, 1508970993, 2453635748, 2870763221,
   3624381080, 310598401, 607225278, 1426881987,
   1925078388, 2162078206, 2614888103, 3248222580,
   3835390401, 4022224774, 264347078, 604807628,
   770255983, 1249150122, 1555081692, 1996064986,
   2554220882, 2821834349, 2952996808, 3210313671,
   3336571891, 3584528711, 113926993, 338241895,
   666307205, 773529912, 1294757372, 1396182291,
   1695183700, 1986661051, 2177026350, 2456956037,
   2730485921, 2820302411, 3259730800, 3345764771,
   3516065817, 3600352804, 4094571909, 275423344,
   430227734, 506948616, 659060556, 883997877,
   958139571, 1322822218, 1537002063, 1747873779,
   1955562222, 2024104815, 2227730452, 2361852424,
   2428436474, 2756734187, 3204031479, 3329325298]

/-- SHA-256 padding (src/crypto.rs lines 27-33): append the byte 0x80,
then zeros until the length is 56 mod 64, then the bit length big-endian
in 8 bytes. -/
def sha_pad (msg : Bytes) : Bytes :=
  msg ++ 128 :: List.replicate ((56 + 64 - (msg.length + 1) % 64) % 64) 0 ++ be8 (8 * msg.length)

/-- The small sigma functions of the SHA-256 message schedule. -/
def ssig0 (x : Nat) : Nat := Nat.xor (Nat.xor (rotr32 x 7) (rotr32 x 18)) ((x % 2 ^ 32) >>> 3)

/-- Second small sigma function of the message schedule. -/
def ssig1 (x : Nat) : Nat := Nat.xor (Nat.xor (rotr32 x 17) (rotr32 x 19)) ((x % 2 ^ 32) >>> 10)

/-- The big sigma function applied to a in each round. -/
def bsig0 (x : Nat) : Nat := Nat.xor (Nat.xor (rotr32 x 2) (rotr32 x 13)) (rotr32 x 22)

/-- The big sigma function applied to e in each round. -/
def bsig1 (x : Nat) : Nat := Nat.xor (Nat.xor (rotr32 x 6) (rotr32 x 11)) (rotr32 x 25)

/-- The choice function (e and f) xor ((not e) and g) on u32. -/
def sha_ch (e f g : Nat) : Nat :=
  Nat.xor (Nat.land e f) (Nat.land (Nat.xor (e % 2 ^ 32) (2 ^ 32 - 1)) g)

/-- The majority function (a and b) xor (a and c) xor (b and c). -/
def sha_maj (a b c : Nat) : Nat :=
  Nat.xor (Nat.xor (Nat.land a b) (Nat.land a c)) (Nat.land b c)

/-- The message-schedule extension loop (src/crypto.rs lines 41-45),
appending one word per step; 48 steps extend the 16 chunk words to 64. -/
def extend_w : Nat → List Nat → List Nat
  | 0, w => w
  | n + 1, w =>
      let i := w.length
      extend_w n (w ++ [(w.getD (i - 16) 0 + ssig0 (w.getD (i - 15) 0) + w.getD (i - 7) 0
        + ssig1 (w.getD (i - 2) 0)) % 2 ^ 32])

/-- The full 64-word message schedule of one 64-byte chunk. -/
def chunk_w (chunk : Bytes) : List Nat := extend_w 48 ((List.range 16).map (word_be chunk))

/-- The eight working variables of the SHA-256 compression loop. -/
structure Hvars where
  a : Nat
  b : Nat
  c : Nat
  d : Nat
  e : Nat
  f : Nat
  g : Nat
  h : Nat

/-- One round of the SHA-256 compression loop (src/crypto.rs lines 50-60). -/
def sha_round (w : List Nat) (i : Nat) (v : Hvars) : Hvars :=
  let t1 := (v.h + bsig1 v.e + sha_ch v.e v.f v.g + k256.getD i 0 + w.getD i 0) % 2 ^ 32
  let t2 := (bsig0 v.a + sha_maj v.a v.b v.c) % 2 ^ 32
  { a := (t1 + t2) % 2 ^ 32, b := v.a, c := v.b, d := v.c,
    e := (v.d + t1) % 2 ^ 32, f := v.e, g := v.f, h := v.g }

/-- The 64-round compression loop, rounds i to i+n-1. -/
def sha_rounds (w : List Nat) : Nat → Nat → Hvars → Hvars
  | _, 0, v => v
  | i, n + 1, v => sha_rounds w (i + 1) n (sha_round w i v)

/-- Processing of one 64-byte chunk (src/crypto.rs lines 36-66): run the
64 rounds from the current hash state and add the result back in. -/
def sha_compress (hs : List Nat) (chunk : Bytes) : List Nat :=
  let w := chunk_w chunk
  let v := sha_rounds w 0 64
    ⟨hs.getD 0 0, hs.getD 1 0, hs.getD 2 0, hs.getD 3 0,
     hs.getD 4 0, hs.getD 5 0, hs.getD 6 0, hs.getD 7 0⟩
  [(hs.getD 0 0 + v.a) % 2 ^ 32, (hs.getD 1 0 + v.b) % 2 ^ 32,
   (hs.getD 2 0 + v.c) % 2 ^ 32, (hs.getD 3 0 + v.d) % 2 ^ 32,
   (hs.getD 4 0 + v.e) % 2 ^ 32, (hs.getD 5 0 + v.f) % 2 ^ 32,
   (hs.getD 6 0 + v.g) % 2 ^ 32, (hs.getD 7 0 + v.h) % 2 ^ 32]

/-- The chunk loop of sha256 over the padded message. -/
def sha_chunks : List Nat → Bytes → List Nat
  | hs, [] => hs
  | hs, b :: rest => sha_chunks (sha_compress hs ((b :: rest).take 64)) ((b :: rest).drop 64)
termination_by _ data => data.length
decreasing_by simp [List.length_drop]; omega

/-- Model of sha256 (src/crypto.rs lines 20-73).  The eight initial hash
words are the FIPS 180-4 values, in decimal (0x6a09e667 and so on). -/
def sha256 (data : Bytes) : Bytes :=
  let hs := sha_chunks
    [1779033703, 3144134277, 1013904242, 2773480762,
     1359893119, 2600822924, 528734635, 1541459225] (sha_pad data)
  be4 (hs.getD 0 0) ++ be4 (hs.getD 1 0) ++ be4 (hs.getD 2 0) ++ be4 (hs.getD 3 0) ++
  be4 (hs.getD 4 0) ++ be4 (hs.getD 5 0) ++ be4 (hs.getD 6 0) ++ be4 (hs.getD 7 0)

/-- Model of hmac_sha256 (src/crypto.rs lines 76-98): the key hashed when
longer than 64 bytes, zero-padded to 64 bytes, XORed with the inner and
outer pads. -/
def hmac_sha256 (key data : Bytes) : Bytes :=
  let kb := if key.length > 64 then sha256 key else key
  let k := kb ++ List.replicate (64 - kb.length) 0
  sha256 (k.map (Nat.xor 92) ++ sha256 (k.map (Nat.xor 54) ++ data))

/-- Bytewise XOR of two buffers of equal length, the result accumulation
of pbkdf2. -/
def xor_bytes (a b : Bytes) : Bytes := List.zipWith Nat.xor a b

/-- The iteration loop of pbkdf2 (src/crypto.rs lines 109-114). -/
def pbkdf2_go : Nat → Bytes → Bytes → Bytes → Bytes
  | 0, _, _, acc => acc
  | n + 1, pw, u, acc =>
      let u1 := hmac_sha256 pw u
      pbkdf2_go n pw u1 (xor_bytes acc u1)

/-- Model of pbkdf2 (src/crypto.rs lines 101-116): single-block PBKDF2
with HMAC-SHA256; the first U is HMAC(password, salt followed by the
block index 1 big-endian), then iterations - 1 further rounds are XORed
into the result. -/
def pbkdf2 (password salt : Bytes) (iterations : Nat) : Bytes :=
  let u1 := hmac_sha256 password (salt ++ be4 1)
  pbkdf2_go (iterations - 1) password u1 u1

/-- Value of one ASCII hex digit character (both cases), as accepted by
u8::from_str_radix with radix 16. -/
def from_hex_digit (c : Nat) : Option Nat :=
  if 48 ≤ c ∧ c ≤ 57 then some (c - 48)
  else if 97 ≤ c ∧ c ≤ 102 then some (c - 87)
  else if 65 ≤ c ∧ c ≤ 70 then some (c - 55)
  else none

/-- Model of u8::from_str_radix on a two-character slice: two hex digits,
or a leading plus sign followed by one hex digit (from_str_radix accepts
a leading plus); anything else is an Err, modelled as none. -/
def from_str_radix2 (c1 c2 : Nat) : Option Nat :=
  if c1 = 43 then from_hex_digit c2
  else
    match from_hex_digit c1, from_hex_digit c2 with
    | some d1, some d2 => some (16 * d1 + d2)
    | _, _ => none

/-- Model of hex_decode (src/crypto.rs lines 213-215).  The source slices
two bytes at a time and collects the parse results into an Option,
short-circuiting at the first failed parse; when the iteration reaches a
final lone character the slice s from i to i+2 is out of bounds and the
function panics, the Except.error case here.  (The model treats the
string as its byte sequence; the additional panic the source exhibits
when a two-byte slice splits a multi-byte UTF-8 character is outside this
model, which is exact on ASCII input.) -/
def hex_decode : Str → Except Unit (Option Bytes)
  | [] => Except.ok (some [])
  | [_] => Except.error ()
  | c1 :: c2 :: rest =>
      match from_str_radix2 c1 c2 with
      | none => Except.ok none
      | some b =>
          match hex_decode rest with
          | Except.error () => Except.error ()
          | Except.ok none => Except.ok none
          | Except.ok (some bs) => Except.ok (some (b :: bs))

/-- Model of str::split on the colon character followed by collect, as
used by verify_password: the list of colon-separated parts, including
empty parts. -/
def split_colon : Str → List Str
  | [] => [[]]
  | c :: rest =>
      if c = 58 then [] :: split_colon rest
      else
        match split_colon rest with
        | [] => [[c]]
        | p :: ps => (c :: p) :: ps

/-- Model of verify_password (src/crypto.rs lines 198-205).  The result
is Except.error when the source panics (inside hex_decode), otherwise the
boolean comparison outcome.  The final comparison of the two byte slices
is equality of the byte lists. -/
def verify_password (password stored : Str) : Except Unit Bool :=
  let parts := split_colon stored
  if parts.length ≠ 2 then Except.ok false
  else
    match hex_decode (parts.getD 0 []) with
    | Except.error () => Except.error ()
    | Except.ok none => Except.ok false
    | Except.ok (some salt) =>
        match hex_decode (parts.getD 1 []) with
        | Except.error () => Except.error ()
        | Except.ok none => Except.ok false
        | Except.ok (some stored_hash) =>
            Except.ok (pbkdf2 password salt 100000 == stored_hash)

/-- The field loop inside the schema phase of deserialize (src/db.rs
lines 264-268). -/
def read_fields : Nat → Bytes → Option (Schema × Bytes)
  | 0, data => some ([], data)
  | n + 1, data =>
      match read_string data with
      | none => none
      | some (fname, r1) =>
          match read_string r1 with
          | none => none
          | some (ftype, r2) =>
              match read_fields n r2 with
              | none => none
              | some (fs, r3) => some ((fname, ftype) :: fs, r3)

/-- The schema phase of deserialize (src/db.rs lines 259-271): for each
schema record, read the name and fields and insert the schema and an
empty collection of that name (replacing existing entries). -/
def read_schemas_phase : Nat → DBState → Bytes → Option (DBState × Bytes)
  | 0, st, data => some (st, data)
  | n + 1, st, data =>
      match read_string data with
      | none => none
      | some (name, r1) =>
          match read_u32 r1 with
          | none => none
          | some (fc, r2) =>
              match read_fields fc r2 with
              | none => none
              | some (fields, r3) =>
                  read_schemas_phase n
                    { collections := ainsert st.collections name []
                      schemas := ainsert st.schemas name fields } r3

/-- The document loop of the collection phase of deserialize (src/db.rs
lines 278-282), inserting each read document into the collection. -/
def read_docs : Nat → Nat → Collection → Bytes → Option (Collection × Bytes)
  | _, 0, col, data => some (col, data)
  | fuel, n + 1, col, data =>
      match read_string data with
      | none => none
      | some (id, r1) =>
          match read_doc fuel r1 with
          | none => none
          | some (doc, r2) => read_docs fuel n (ainsert col id doc) r2

/-- The collection phase of deserialize (src/db.rs lines 274-283): while
bytes remain, read a collection name and document count, fetch or create
the named collection (cols.entry(name).or_insert_with, which touches only
the collection map, not the schema map), and insert the documents.  The
while loop consumes at least eight bytes per iteration or panics, so the
fuel, instantiated at one more than the buffer length by db_deserialize,
never runs out before the source loop would have ended. -/
def read_collections_phase : Nat → DBState → Bytes → Option DBState
  | _, st, [] => some st
  | 0, _, _ :: _ => none
  | fuel + 1, st, b :: bs =>
      match read_string (b :: bs) with
      | none => none
      | some (name, r1) =>
          match read_u32 r1 with
          | none => none
          | some (dc, r2) =>
              match read_docs (r2.length + 1) dc ((alookup st.collections name).getD []) r2 with
              | none => none
              | some (col1, r3) =>
                  read_collections_phase fuel
                    { st with collections := ainsert st.collections name col1 } r3

/-- Model of Database::deserialize (src/db.rs lines 253-284): the schema
phase then the collection phase, mutating the given state.  A panic of
the source (out-of-bounds read on truncated data) is the none case. -/
def db_deserialize (st : DBState) (data : Bytes) : Option DBState :=
  match read_u32 data with
  | none => none
  | some (schemaCount, rest) =>
      match read_schemas_phase schemaCount st rest with
      | none => none
      | some (st1, r1) => read_collections_phase (r1.length + 1) st1 r1

/-- Model of set_default (src/db.rs lines 448-452). -/
def set_default (doc : Document) (k : Str) (v : Value) : Document :=
  if (alookup doc k).isSome then doc else ainsert doc k v

/-- The 21 settings fields with their canonical default values, in the
order they are written by ensure_settings_defaults (src/db.rs lines
345-366 and 372-394). -/
def settings_defaults : Document :=
  [(asciiStr "page_title", Value.vstr (asciiStr "Rust Pure Web")),
   (asciiStr "meta_description", Value.vstr (asciiStr "Zero-dependency Rust web framework.")),
   (asciiStr "meta_keywords", Value.vstr (asciiStr "rust, web, zero-deps")),
   (asciiStr "og_title", Value.vstr (asciiStr "Rust Pure Web")),
   (asciiStr "og_description", Value.vstr (asciiStr "Fast, zero-dependency web framework in Rust.")),
   (asciiStr "og_image", Value.vstr (asciiStr "")),
   (asciiStr "twitter_card", Value.vstr (asciiStr "summary_large_image")),
   (asciiStr "canonical_url", Value.vstr (asciiStr "")),
   (asciiStr "nginx_hostname", Value.vstr (asciiStr "proxy.olibuijr.com")),
   (asciiStr "nginx_internal_ip", Value.vstr (asciiStr "192.168.8.4")),
   (asciiStr "dev_network_name", Value.vstr (asciiStr "dev")),
   (asciiStr "dev_network_subnet", Value.vstr (asciiStr "10.35.0.0/24")),
   (asciiStr "dev_ip_base", Value.vstr (asciiStr "10.35.0.")),
   (asciiStr "prod_network_name", Value.vstr (asciiStr "prod")),
   (asciiStr "prod_network_subnet", Value.vstr (asciiStr "10.36.0.0/24")),
   (asciiStr "prod_ip_base", Value.vstr (asciiStr "10.36.0.")),
   (asciiStr "app_port", Value.vint 3460),
   (asciiStr "dev_port_start", Value.vint 3501),
   (asciiStr "dev_port_end", Value.vint 3599),
   (asciiStr "prod_port_start", Value.vint 3601),
   (asciiStr "prod_port_end", Value.vint 3699)]

/-- Model of ensure_internal_collections (src/db.rs lines 325-339): when
the schema map has no entry named _ports, insert the collection and its
schema. -/
def ensure_internal_collections (st : DBState) : DBState :=
  if (alookup st.schemas (asciiStr "_ports")).isSome then st
  else
    { collections := ainsert st.collections (asciiStr "_ports") []
      schemas := ainsert st.schemas (asciiStr "_ports") ports_schema }

/-- Model of ensure_settings_defaults (src/db.rs lines 341-395): fetch or
create the collection named _settings; when it is empty insert one
document holding every default under a fresh random hex id (the drawn
bytes are the explicit parameter), otherwise fill each missing default
field of every document. -/
def ensure_settings_defaults (st : DBState) (sidBytes : Bytes) : DBState :=
  let col := (alookup st.collections (asciiStr "_settings")).getD []
  if col.isEmpty then
    let doc := settings_defaults.foldl (fun d kv => ainsert d kv.1 kv.2) []
    let col1 := ainsert col (random_hex sidBytes) doc
    { st with collections := ainsert st.collections (asciiStr "_settings") col1 }
  else
    let col1 := col.map fun p => (p.1, settings_defaults.foldl (fun d kv => set_default d kv.1 kv.2) p.2)
    { st with collections := ainsert st.collections (asciiStr "_settings") col1 }

/-- Model of migrate_system_defaults (src/db.rs lines 320-323). -/
def migrate_system_defaults (st : DBState) (sidBytes : Bytes) : DBState :=
  ensure_settings_defaults (ensure_internal_collections st) sidBytes

/-- Model of Database::load (src/db.rs lines 302-310) applied to the
bytes of an existing persisted file: a file shorter than 14 bytes or with
a version byte other than 1 (DB_VERSION) is ignored, leaving the state as
it was; otherwise bytes 1 to 12 are the nonce, the remainder is
decrypted, deserialized into the state and the system-default migrations
run.  The key is the derived 32-byte encryption key and sidBytes the
random bytes the migration may draw. -/
def db_load (key file sidBytes : Bytes) (st : DBState) : Option DBState :=
  if file.length < 14 ∨ file.getD 0 0 ≠ 1 then some st
  else
    (db_deserialize st (chacha20 key ((file.drop 1).take 12) (file.drop 13))).map
      (fun st1 => migrate_system_defaults st1 sidBytes)

/-- Formalization of the load policy exactly as the specification states
it, for comparison with db_load: the file is ignored only when it is
shorter than the header size, 13 bytes (1 version byte plus 12 nonce
bytes), or its version byte mismatches; otherwise it is decrypted with
the embedded nonce and deserialized (and migrated). -/
def load_per_spec (key file sidBytes : Bytes) (st : DBState) : Option DBState :=
  if file.length < 13 ∨ file.getD 0 0 ≠ 1 then some st
  else
    (db_deserialize st (chacha20 key ((file.drop 1).take 12) (file.drop 13))).map
      (fun st1 => migrate_system_defaults st1 sidBytes)

/-- The engine operations the reachable-state invariant ranges over:
collection creation and deletion, document insert, update and delete,
deserialize, the system-default migrations, and load.  Randomness, clock
readings, byte input and the encryption key are carried as explicit
arguments. -/
inductive Op where
  | opCreate : Str → Schema → Op
  | opInsert : Str → Document → Bytes → Int → Op
  | opUpdate : Str → Str → Document → Int → Op
  | opDeleteDoc : Str → Str → Op
  | opDeleteCollection : Str → Op
  | opDeserialize : Bytes → Op
  | opMigrate : Bytes → Op
  | opLoad : Bytes → Bytes → Bytes → Op

/-- Effect of one engine operation on the database state; none is a panic
(possible only inside deserialize, on malformed input). -/
def applyOp (st : DBState) : Op → Option DBState
  | .opCreate n f => some (db_create_collection st n f).state
  | .opInsert c d idB t => some (db_insert st c d idB t).state
  | .opUpdate c id u t => some (db_update st c id u t).state
  | .opDeleteDoc c id => some (db_delete st c id).state
  | .opDeleteCollection n => some (db_delete_collection st n).state
  | .opDeserialize data => db_deserialize st data
  | .opMigrate sidB => some (migrate_system_defaults st sidB)
  | .opLoad key file sidB => db_load key file sidB st

/-- Effect of a sequence of engine operations. -/
def applyOps : List Op → DBState → Option DBState
  | [], st => some st
  | op :: rest, st =>
      match applyOp st op with
      | none => none
      | some st1 => applyOps rest st1

/-- Whether an operation reads persisted bytes back into the store
(deserialize, or load which contains it). -/
def Op.readsPersisted : Op → Bool
  | .opDeserialize _ => true
  | .opLoad _ _ _ => true
  | _ => false

mutual

/-- Well-formedness of a Value as a value of the Rust types: Int values
lie in the i64 range and Float bit patterns in the u64 range (enforced by
the Rust types themselves), and every string length, array length and
object entry count is below 2 to the 32 (NOT enforced by the Rust types:
the codec truncates usize lengths to u32). -/
def wf_value : Value → Prop
  | .vnull => True
  | .vbool _ => True
  | .vint i => -(2 ^ 63) ≤ i ∧ i < 2 ^ 63
  | .vfloat bits => bits < 2 ^ 64
  | .vstr s => s.length < 2 ^ 32
  | .varr a => a.length < 2 ^ 32 ∧ wf_values a
  | .vobj o => o.length < 2 ^ 32 ∧ wf_pairs o

/-- Well-formedness of a list of values. -/
def wf_values : List Value → Prop
  | [] => True
  | v :: rest => wf_value v ∧ wf_values rest

/-- Well-formedness of a list of key/value pairs. -/
def wf_pairs : List (Str × Value) → Prop
  | [] => True
  | (k, v) :: rest => k.length < 2 ^ 32 ∧ wf_value v ∧ wf_pairs rest

end

/-- Well-formedness of a Document (see wf_value). -/
def wf_doc (d : Document) : Prop := d.length < 2 ^ 32 ∧ wf_pairs d

mutual

/-- Nesting depth of a Value: the number of Array/Object levels, which
bounds the fuel the reader model needs. -/
def depth_value : Value → Nat
  | .varr a => depth_values a + 1
  | .vobj o => depth_pairs o + 1
  | _ => 0

/-- Greatest nesting depth in a list of values. -/
def depth_values : List Value → Nat
  | [] => 0
  | v :: rest => max (depth_value v) (depth_values rest)

/-- Greatest nesting depth in a list of key/value pairs. -/
def depth_pairs : List (Str × Value) → Nat
  | [] => 0
  | (_, v) :: rest => max (depth_value v) (depth_pairs rest)

end

/-- Greatest nesting depth in a Document. -/
def depth_doc (d : Document) : Nat := depth_pairs d

/-- An ASCII lowercase hex digit character code (the characters that
random_hex produces). -/
def is_hex_char (c : Nat) : Prop := (48 ≤ c ∧ c ≤ 57) ∨ (97 ≤ c ∧ c ≤ 102)

/-- The key-set half of the claimed invariant that provably survives
every operation: every schema name is also a collection name. -/
def keys_sub (st : DBState) : Prop :=
  ∀ k, k ∈ akeys st.schemas → k ∈ akeys st.collections

/-- The claimed invariant: the schema map and the collection map have the
same key set. -/
def keys_eq (st : DBState) : Prop :=
  ∀ k, k ∈ akeys st.schemas ↔ k ∈ akeys st.collections

/-- Auxiliary invariant: the schema map has an entry named _settings (true
from bootstrap on, and no operation can remove it, since delete_collection
refuses underscore names). -/
def settings_tracked (st : DBState) : Prop :=
  asciiStr "_settings" ∈ akeys st.schemas

/-- A serialized image whose schema table is empty but whose collection
table names one collection x with no documents: 4 zero bytes (schema
count 0), the string x (length 1, byte 120), 4 zero bytes (document
count 0). -/
def c4_bad_data : Bytes := [0, 0, 0, 0, 1, 0, 0, 0, 120, 0, 0, 0, 0]

/-- A demonstration operation sequence without deserialize or load:
create a collection named notes, insert a document into it, update it
with an arbitrary id, delete a collection named gone. -/
def c4_demo_ops : List Op :=
  [Op.opCreate (asciiStr "notes") [(asciiStr "title", asciiStr "string")],
   Op.opInsert (asciiStr "notes") [] (List.replicate 12 0) 5,
   Op.opDeleteCollection (asciiStr "gone")]

/-- The state the demonstration sequence reaches. -/
def c4_demo_state : DBState := (applyOps c4_demo_ops dbInit).getD ⟨[], []⟩

/-- The state reached from bootstrap by deserializing c4_bad_data. -/
def c4_bad_state : DBState := (db_deserialize dbInit c4_bad_data).getD ⟨[], []⟩

/-- A database state with one collection named n holding one document
under the id d1, and its schema. -/
def c1_st : DBState :=
  { collections := [(asciiStr "n", [(asciiStr "d1", [(idKey, Value.vstr (asciiStr "d1"))])])]
    schemas := [(asciiStr "n", [])] }

/-- A document holding a string of length 2 to the 32, whose u32 length
prefix truncates to 0. -/
def c2_big_doc : Document := [(asciiStr "k", Value.vstr (List.replicate (2 ^ 32) 97))]

/-- A small document exercising every Value constructor, for the
round-trip witness. -/
def c2_demo_doc : Document :=
  [(asciiStr "k", Value.vbool true), (asciiStr "n", Value.vint (-5)),
   (asciiStr "z", Value.vnull), (asciiStr "f", Value.vfloat 77),
   (asciiStr "s", Value.vstr (asciiStr "hi")),
   (asciiStr "a", Value.varr [Value.vnull, Value.vobj [(asciiStr "x", Value.vint 3)]])]

/-- A collection state for the insert counterexample: the collection c
already holds a document whose id is exactly the hex encoding of twelve
zero bytes. -/
def c6_col : Collection := [(random_hex (List.replicate 12 0), [(asciiStr "old", Value.vint 1)])]

/-- The database state around c6_col. -/
def c6_st : DBState := { collections := [(asciiStr "c", c6_col)], schemas := [(asciiStr "c", [])] }

/-- The document that Database::insert stores: the caller document with
the reserved id, created and updated fields injected. -/
def inserted_doc (doc : Document) (idBytes : Bytes) (t : Int) : Document :=
  ainsert (ainsert (ainsert doc idKey (Value.vstr (random_hex idBytes)))
    createdKey (Value.vint t)) updatedKey (Value.vint t)

/-- The document that Database::update stores back: the merge of the
permitted update fields into the old document, with updated refreshed. -/
def updated_doc (doc updates : Document) (t : Int) : Document :=
  ainsert (merge_updates doc updates) updatedKey (Value.vint t)

/-- A stored document for the update witness, with its reserved fields
and one payload field. -/
def c3_doc : Document :=
  [(idKey, Value.vstr (asciiStr "ab")), (createdKey, Value.vint 1),
   (updatedKey, Value.vint 1), (asciiStr "title", Value.vstr (asciiStr "hi"))]

/-- The collection holding c3_doc under the id ab. -/
def c3_col : Collection := [(asciiStr "ab", c3_doc)]

/-- A database state with the collection notes holding c3_doc. -/
def c3_st : DBState := { collections := [(asciiStr "notes", c3_col)], schemas := [(asciiStr "notes", [])] }

/-- An update payload touching the title field and trying to overwrite
the reserved id field. -/
def c3_updates : Document :=
  [(asciiStr "title", Value.vstr (asciiStr "bye")), (idKey, Value.vstr (asciiStr "zz"))]

/-- A 13-byte persisted file: version byte 1 followed by a 12-byte nonce
and no ciphertext, exactly the header size the specification names. -/
def c8_file13 : Bytes := 1 :: List.replicate 12 0

/-- An arbitrary 32-byte key for the load counterexample. -/
def c8_key : Bytes := List.replicate 32 0

theorem alookup_ainsert_self {α : Type} (l : List (Str × α)) (k : Str) (v : α) :
    alookup (ainsert l k v) k = some v := by
  induction l with
  | nil => simp [ainsert, alookup]
  | cons p rest ih =>
    obtain ⟨k', v'⟩ := p
    by_cases h : k' = k <;> simp [ainsert, alookup, h, ih]

theorem akeys_cons {α : Type} (k : Str) (v : α) (l : List (Str × α)) :
    akeys ((k, v) :: l) = k :: akeys l := rfl

theorem alookup_ainsert_ne {α : Type} (l : List (Str × α)) (k k' : Str) (v : α)
    (h : k' ≠ k) : alookup (ainsert l k v) k' = alookup l k' := by
  have hk : ¬k = k' := fun hh => h hh.symm
  induction l with
  | nil => simp [ainsert, alookup, hk]
  | cons p rest ih =>
    obtain ⟨k0, v0⟩ := p
    by_cases h0 : k0 = k
    · subst h0
      simp [ainsert, alookup, hk]
    · simp only [ainsert, if_neg h0]
      by_cases h1 : k0 = k'
      · simp [alookup, h1]
      · simp [alookup, h1, ih]

theorem aremove_of_alookup_none {α : Type} (l : List (Str × α)) (k : Str)
    (h : alookup l k = none) : aremove l k = l := by
  induction l with
  | nil => simp [aremove]
  | cons p rest ih =>
    obtain ⟨k0, v0⟩ := p
    by_cases h0 : k0 = k
    · simp [alookup, h0] at h
    · simp [alookup, h0] at h
      simp [aremove, h0, ih h]

theorem mem_akeys_iff {α : Type} (l : List (Str × α)) (k : Str) :
    k ∈ akeys l ↔ (alookup l k).isSome := by
  induction l with
  | nil => simp [akeys, alookup]
  | cons p rest ih =>
    obtain ⟨k0, v0⟩ := p
    rw [akeys_cons]
    by_cases h0 : k0 = k
    · subst h0
      simp [alookup]
    · have hk : ¬k = k0 := fun hh => h0 hh.symm
      simp [alookup, h0, hk, ih]

theorem alookup_none_of_not_mem_akeys {α : Type} (l : List (Str × α)) (k : Str)
    (h : k ∉ akeys l) : alookup l k = none := by
  have := (mem_akeys_iff l k).not.mp h
  cases hl : alookup l k with
  | none => rfl
  | some v => rw [hl] at this; simp at this

theorem mem_akeys_ainsert {α : Type} (l : List (Str × α)) (k k' : Str) (v : α) :
    k' ∈ akeys (ainsert l k v) ↔ k' = k ∨ k' ∈ akeys l := by
  induction l with
  | nil => simp [ainsert, akeys]
  | cons p rest ih =>
    obtain ⟨k0, v0⟩ := p
    by_cases h0 : k0 = k
    · subst h0
      simp [ainsert, akeys_cons, List.mem_cons]
    · simp only [ainsert, if_neg h0, akeys_cons, List.mem_cons, ih]
      tauto

theorem mem_akeys_aremove {α : Type} (l : List (Str × α)) (k k' : Str) :
    k' ∈ akeys (aremove l k) ↔ k' ∈ akeys l ∧ k' ≠ k := by
  induction l with
  | nil => simp [aremove, akeys]
  | cons p rest ih =>
    obtain ⟨k0, v0⟩ := p
    by_cases h0 : k0 = k
    · subst h0
      simp [aremove, akeys_cons, List.mem_cons, ih]
      intro h1 h2
      exact absurd h2 h1
    · simp only [aremove, if_neg h0, akeys_cons, List.mem_cons, ih]
      constructor
      · rintro (h | ⟨hm, hne⟩)
        · exact ⟨Or.inl h, fun hh => h0 ((h ▸ hh : k0 = k))⟩
        · exact ⟨Or.inr hm, hne⟩
      · rintro ⟨h | hm, hne⟩
        · exact Or.inl h
        · exact Or.inr ⟨hm, hne⟩

/-- C9: deleting any collection whose name starts with an underscore is
refused: the call returns false, the state (collections, documents and
schemas) is exactly as before, no persistence write runs and no change
event is emitted. -/
theorem c9_theorem (st : DBState) (name : Str) (h : name.head? = some 95) :
    (db_delete_collection st name).ret = false ∧
    (db_delete_collection st name).state = st ∧
    (db_delete_collection st name).events = [] ∧
    (db_delete_collection st name).synced = false := by
  simp [db_delete_collection, h]

/-- Witness for C9 at the bootstrap state and the collection _users. -/
theorem c9_witness :
    (asciiStr "_users").head? = some 95 ∧
    ((db_delete_collection dbInit (asciiStr "_users")).ret = false ∧
     (db_delete_collection dbInit (asciiStr "_users")).state = dbInit ∧
     (db_delete_collection dbInit (asciiStr "_users")).events = [] ∧
     (db_delete_collection dbInit (asciiStr "_users")).synced = false) :=
  ⟨by decide, c9_theorem dbInit (asciiStr "_users") (by decide)⟩

/-- C10: deleting a collection whose name does not start with an
underscore returns true even when no collection of that name exists; the
absent case is not distinguished: the state is unchanged, sync runs and a
collection.deleted event for the non-existent name is emitted. -/
theorem c10_theorem (st : DBState) (name : Str) (h1 : name.head? ≠ some 95)
    (h2 : alookup st.collections name = none) (h3 : alookup st.schemas name = none) :
    (db_delete_collection st name).ret = true ∧
    (db_delete_collection st name).state = st ∧
    (db_delete_collection st name).events = [DbEvent.collectionDeleted name] ∧
    (db_delete_collection st name).synced = true := by
  cases st with
  | mk cols schemas =>
    simp only [db_delete_collection, h1, if_false]
    simp [aremove_of_alookup_none _ _ h2, aremove_of_alookup_none _ _ h3]

/-- Witness for C10 at the bootstrap state and the absent collection
named gone. -/
theorem c10_witness :
    (asciiStr "gone").head? ≠ some 95 ∧
    ((db_delete_collection dbInit (asciiStr "gone")).ret = true ∧
     (db_delete_collection dbInit (asciiStr "gone")).state = dbInit ∧
     (db_delete_collection dbInit (asciiStr "gone")).events
       = [DbEvent.collectionDeleted (asciiStr "gone")] ∧
     (db_delete_collection dbInit (asciiStr "gone")).synced = true) :=
  ⟨by decide, c10_theorem dbInit (asciiStr "gone") (by decide) rfl rfl⟩

/-- C1 (amended): the externally reachable create_collection rejects a
request exactly when the name is empty or starts with an underscore, and
in those rejection cases nothing is created or replaced; an already
existing name is NOT rejected: the request succeeds, the collection is
replaced by a new empty one (discarding its documents) and its schema is
replaced, while every other collection and schema is untouched. -/
theorem c1_theorem (st : DBState) (name : Str) (fields : Schema) :
    ((name = [] ∨ name.head? = some 95) →
      (api_create_collection st name fields).ret = ApiResp.badRequestResp ∧
      (api_create_collection st name fields).state = st ∧
      (api_create_collection st name fields).events = [] ∧
      (api_create_collection st name fields).synced = false) ∧
    (¬(name = [] ∨ name.head? = some 95) →
      (api_create_collection st name fields).ret = ApiResp.createdResp ∧
      alookup (api_create_collection st name fields).state.collections name = some [] ∧
      alookup (api_create_collection st name fields).state.schemas name = some fields ∧
      (∀ k, k ≠ name →
        alookup (api_create_collection st name fields).state.collections k
          = alookup st.collections k) ∧
      (∀ k, k ≠ name →
        alookup (api_create_collection st name fields).state.schemas k
          = alookup st.schemas k) ∧
      (api_create_collection st name fields).synced = true) := by
  constructor
  · intro h
    simp [api_create_collection, h]
  · intro h
    refine ⟨?_, ?_, ?_, ?_, ?_, ?_⟩ <;>
      simp [api_create_collection, h, db_create_collection, create_collection_internal,
        alookup_ainsert_self, alookup_ainsert_ne]
    · intro k hk
      exact alookup_ainsert_ne _ _ _ _ hk
    · intro k hk
      exact alookup_ainsert_ne _ _ _ _ hk

/-- Witness for C1 at the bootstrap state with the fresh valid name m. -/
theorem c1_witness :
    ¬(asciiStr "m" = [] ∨ (asciiStr "m").head? = some 95) ∧
    ((api_create_collection dbInit (asciiStr "m") []).ret = ApiResp.createdResp ∧
     alookup (api_create_collection dbInit (asciiStr "m") []).state.collections (asciiStr "m")
       = some [] ∧
     alookup (api_create_collection dbInit (asciiStr "m") []).state.schemas (asciiStr "m")
       = some [] ∧
     (∀ k, k ≠ asciiStr "m" →
       alookup (api_create_collection dbInit (asciiStr "m") []).state.collections k
         = alookup dbInit.collections k) ∧
     (∀ k, k ≠ asciiStr "m" →
       alookup (api_create_collection dbInit (asciiStr "m") []).state.schemas k
         = alookup dbInit.schemas k) ∧
     (api_create_collection dbInit (asciiStr "m") []).synced = true) :=
  ⟨by decide, (c1_theorem dbInit (asciiStr "m") []).2 (by decide)⟩

/-- Counterexample to C1 as stated: in the state c1_st the collection n
already exists and holds a document, yet the request is not rejected; it
succeeds and the stored document is discarded (the collection becomes
empty). -/
theorem c1_counterexample :
    (alookup c1_st.collections (asciiStr "n")).isSome = true ∧
    (api_create_collection c1_st (asciiStr "n") []).ret ≠ ApiResp.badRequestResp ∧
    (find_one c1_st (asciiStr "n") (asciiStr "d1")).isSome = true ∧
    find_one (api_create_collection c1_st (asciiStr "n") []).state (asciiStr "n") (asciiStr "d1")
      = none ∧
    alookup (api_create_collection c1_st (asciiStr "n") []).state.collections (asciiStr "n")
      = some [] :=
  ⟨rfl, by decide, rfl, rfl, rfl⟩

theorem merge_updates_cons (doc : Document) (p : Str × Value) (rest : Document) :
    merge_updates doc (p :: rest) =
      merge_updates (if p.1 ≠ idKey ∧ p.1 ≠ createdKey then ainsert doc p.1 p.2 else doc)
        rest := rfl

theorem merge_updates_lookup_skip (updates : Document) : ∀ doc : Document, ∀ k : Str,
    k = idKey ∨ k = createdKey →
    alookup (merge_updates doc updates) k = alookup doc k := by
  induction updates with
  | nil => intro doc k _; rfl
  | cons p rest ih =>
    intro doc k hk
    rw [merge_updates_cons, ih _ _ hk]
    by_cases hc : p.1 ≠ idKey ∧ p.1 ≠ createdKey
    · rw [if_pos hc]
      have hne : k ≠ p.1 := by
        rcases hk with h | h <;> subst h
        · exact fun hh => hc.1 hh.symm
        · exact fun hh => hc.2 hh.symm
      exact alookup_ainsert_ne _ _ _ _ hne
    · rw [if_neg hc]

theorem merge_updates_lookup_not_mem (updates : Document) : ∀ doc : Document, ∀ k : Str,
    alookup updates k = none →
    alookup (merge_updates doc updates) k = alookup doc k := by
  induction updates with
  | nil => intro doc k _; rfl
  | cons p rest ih =>
    intro doc k h
    obtain ⟨k0, v0⟩ := p
    have h0 : ¬k0 = k := by
      intro hh
      simp [alookup, hh] at h
    have hrest : alookup rest k = none := by simpa [alookup, h0] using h
    rw [merge_updates_cons, ih _ _ hrest]
    by_cases hc : (k0, v0).1 ≠ idKey ∧ (k0, v0).1 ≠ createdKey
    · rw [if_pos hc]
      exact alookup_ainsert_ne _ _ _ _ fun hh => h0 hh.symm
    · rw [if_neg hc]

theorem merge_updates_lookup_mem (updates : Document) : ∀ doc : Document, ∀ k : Str, ∀ v : Value,
    (updates.map Prod.fst).Nodup → k ≠ idKey → k ≠ createdKey →
    alookup updates k = some v →
    alookup (merge_updates doc updates) k = some v := by
  induction updates with
  | nil => intro doc k v _ _ _ h; simp [alookup] at h
  | cons p rest ih =>
    intro doc k v hnd h1 h2 h
    obtain ⟨k0, v0⟩ := p
    rw [merge_updates_cons]
    by_cases h0 : k0 = k
    · subst h0
      have hv : v0 = v := by simpa [alookup] using h
      subst hv
      have hcons : (k0 :: rest.map Prod.fst).Nodup := by simpa using hnd
      have hnm : k0 ∉ akeys rest := by
        have := (List.nodup_cons.mp hcons).1
        simpa [akeys] using this
      rw [merge_updates_lookup_not_mem rest _ _ (alookup_none_of_not_mem_akeys _ _ hnm)]
      rw [if_pos ⟨h1, h2⟩]
      exact alookup_ainsert_self _ _ _
    · have hrest : alookup rest k = some v := by simpa [alookup, h0] using h
      have hcons : (k0 :: rest.map Prod.fst).Nodup := by simpa using hnd
      have hnd' : (rest.map Prod.fst).Nodup := (List.nodup_cons.mp hcons).2
      exact (by rw [ih _ _ _ hnd' h1 h2 hrest] :
        alookup (merge_updates (if (k0, v0).1 ≠ idKey ∧ (k0, v0).1 ≠ createdKey
          then ainsert doc (k0, v0).1 (k0, v0).2 else doc) rest) k = some v)

/-- C3: when the collection and the id exist, update returns true, syncs,
and stores exactly the old document merged with every provided field
except id and created, with updated set to the clock reading: the stored
id and created are unchanged even when those keys appear in the payload,
updated is always set, every other provided field takes its payload
value, and fields not in the payload keep their old value; when the
collection or the id does not exist, update returns false and changes
nothing. -/
theorem c3_theorem (st : DBState) (c id : Str) (updates : Document) (t : Int) :
    (∀ col doc, alookup st.collections c = some col → alookup col id = some doc →
      (updates.map Prod.fst).Nodup →
      (db_update st c id updates t).ret = true ∧
      (db_update st c id updates t).synced = true ∧
      find_one (db_update st c id updates t).state c id = some (updated_doc doc updates t) ∧
      alookup (updated_doc doc updates t) idKey = alookup doc idKey ∧
      alookup (updated_doc doc updates t) createdKey = alookup doc createdKey ∧
      alookup (updated_doc doc updates t) updatedKey = some (Value.vint t) ∧
      (∀ k v, k ≠ idKey → k ≠ createdKey → k ≠ updatedKey →
        alookup updates k = some v → alookup (updated_doc doc updates t) k = some v) ∧
      (∀ k, k ≠ updatedKey → alookup updates k = none →
        alookup (updated_doc doc updates t) k = alookup doc k)) ∧
    (find_one st c id = none →
      (db_update st c id updates t).ret = false ∧
      (db_update st c id updates t).state = st ∧
      (db_update st c id updates t).events = [] ∧
      (db_update st c id updates t).synced = false) := by
  constructor
  · intro col doc hcol hdoc hnd
    have hstate : (db_update st c id updates t).state
        = { st with collections :=
              ainsert st.collections c (ainsert col id (updated_doc doc updates t)) } := by
      simp [db_update, hcol, hdoc, updated_doc]
    refine ⟨by simp [db_update, hcol, hdoc], by simp [db_update, hcol, hdoc], ?_, ?_, ?_, ?_, ?_, ?_⟩
    · rw [hstate]
      simp [find_one, alookup_ainsert_self]
    · unfold updated_doc
      rw [alookup_ainsert_ne _ _ _ _ (by decide)]
      exact merge_updates_lookup_skip updates doc idKey (Or.inl rfl)
    · unfold updated_doc
      rw [alookup_ainsert_ne _ _ _ _ (by decide)]
      exact merge_updates_lookup_skip updates doc createdKey (Or.inr rfl)
    · exact alookup_ainsert_self _ _ _
    · intro k v h1 h2 h3 hm
      unfold updated_doc
      rw [alookup_ainsert_ne _ _ _ _ h3]
      exact merge_updates_lookup_mem updates doc k v hnd h1 h2 hm
    · intro k h3 hn
      unfold updated_doc
      rw [alookup_ainsert_ne _ _ _ _ h3]
      exact merge_updates_lookup_not_mem updates doc k hn
  · intro h
    cases hcol : alookup st.collections c with
    | none => simp [db_update, hcol]
    | some col =>
      have hdoc : alookup col id = none := by
        simpa [find_one, hcol] using h
      simp [db_update, hcol, hdoc]

/-- Witness for C3 at the state c3_st, updating the title field while the
payload also tries to overwrite id. -/
theorem c3_witness :
    alookup c3_st.collections (asciiStr "notes") = some c3_col ∧
    alookup c3_col (asciiStr "ab") = some c3_doc ∧
    (c3_updates.map Prod.fst).Nodup ∧
    ((db_update c3_st (asciiStr "notes") (asciiStr "ab") c3_updates 9).ret = true ∧
     (db_update c3_st (asciiStr "notes") (asciiStr "ab") c3_updates 9).synced = true ∧
     find_one (db_update c3_st (asciiStr "notes") (asciiStr "ab") c3_updates 9).state
       (asciiStr "notes") (asciiStr "ab") = some (updated_doc c3_doc c3_updates 9) ∧
     alookup (updated_doc c3_doc c3_updates 9) idKey = alookup c3_doc idKey ∧
     alookup (updated_doc c3_doc c3_updates 9) createdKey = alookup c3_doc createdKey ∧
     alookup (updated_doc c3_doc c3_updates 9) updatedKey = some (Value.vint 9) ∧
     (∀ k v, k ≠ idKey → k ≠ createdKey → k ≠ updatedKey →
       alookup c3_updates k = some v → alookup (updated_doc c3_doc c3_updates 9) k = some v) ∧
     (∀ k, k ≠ updatedKey → alookup c3_updates k = none →
       alookup (updated_doc c3_doc c3_updates 9) k = alookup c3_doc k)) :=
  ⟨rfl, rfl, by decide,
   (c3_theorem c3_st (asciiStr "notes") (asciiStr "ab") c3_updates 9).1 c3_col c3_doc rfl rfl
     (by decide)⟩

theorem random_hex_length (bs : Bytes) : (random_hex bs).length = 2 * bs.length := by
  induction bs with
  | nil => rfl
  | cons b rest ih =>
    simp [random_hex, ih]
    omega

theorem hex_digit_is_hex (n : Nat) (h : n < 16) : is_hex_char (hex_digit n) := by
  unfold hex_digit is_hex_char
  by_cases h10 : n < 10 <;> simp [h10] <;> omega

theorem random_hex_chars (bs : Bytes) : ∀ ch ∈ random_hex bs, is_hex_char ch := by
  induction bs with
  | nil => intro ch h; simp [random_hex] at h
  | cons b rest ih =>
    intro ch h
    simp only [random_hex, List.mem_cons] at h
    rcases h with h | h | h
    · subst h; exact hex_digit_is_hex _ (Nat.mod_lt _ (by omega))
    · subst h; exact hex_digit_is_hex _ (Nat.mod_lt _ (by omega))
    · exact ih ch h

/-- C6 (amended): insert into an existing collection returns some id,
where id is the 24-lowercase-hex-character encoding of the 12 drawn
random bytes; the code does not check the drawn id against the existing
ids, so when it is not already present (which holds up to random
collision) it is fresh, and otherwise the existing document under that id
is overwritten; the stored document carries the returned id in its id
field and has created and updated both equal to the clock reading; every
other document is untouched; insert into a non-existent collection
returns none and changes nothing. -/
theorem c6_theorem (st : DBState) (c : Str) (doc : Document) (idBytes : Bytes) (t : Int) :
    (∀ col, alookup st.collections c = some col →
      (db_insert st c doc idBytes t).ret = some (random_hex idBytes) ∧
      (idBytes.length = 12 → (random_hex idBytes).length = 24) ∧
      (∀ ch ∈ random_hex idBytes, is_hex_char ch) ∧
      (db_insert st c doc idBytes t).synced = true ∧
      find_one (db_insert st c doc idBytes t).state c (random_hex idBytes)
        = some (inserted_doc doc idBytes t) ∧
      (∀ id', id' ≠ random_hex idBytes →
        find_one (db_insert st c doc idBytes t).state c id' = alookup col id') ∧
      alookup (inserted_doc doc idBytes t) idKey = some (Value.vstr (random_hex idBytes)) ∧
      alookup (inserted_doc doc idBytes t) createdKey = some (Value.vint t) ∧
      alookup (inserted_doc doc idBytes t) updatedKey = some (Value.vint t)) ∧
    (alookup st.collections c = none →
      (db_insert st c doc idBytes t).ret = none ∧
      (db_insert st c doc idBytes t).state = st ∧
      (db_insert st c doc idBytes t).events = [] ∧
      (db_insert st c doc idBytes t).synced = false) := by
  constructor
  · intro col hcol
    have hcols : (db_insert st c doc idBytes t).state.collections
        = ainsert st.collections c (ainsert col (random_hex idBytes)
            (inserted_doc doc idBytes t)) := by
      simp [db_insert, hcol, inserted_doc]
    refine ⟨by simp [db_insert, hcol], ?_, random_hex_chars idBytes,
      by simp [db_insert, hcol], ?_, ?_, ?_, ?_, ?_⟩
    · intro h12
      rw [random_hex_length, h12]
    · simp only [find_one, hcols, alookup_ainsert_self, Option.some_bind]
    · intro id' hne
      simp only [find_one, hcols, alookup_ainsert_self, Option.some_bind]
      exact alookup_ainsert_ne _ _ _ _ hne
    · unfold inserted_doc
      rw [alookup_ainsert_ne _ _ _ _ (by decide), alookup_ainsert_ne _ _ _ _ (by decide)]
      exact alookup_ainsert_self _ _ _
    · unfold inserted_doc
      rw [alookup_ainsert_ne _ _ _ _ (by decide)]
      exact alookup_ainsert_self _ _ _
    · exact alookup_ainsert_self _ _ _
  · intro hcol
    simp [db_insert, hcol]

/-- Witness for C6 at the bootstrap state, inserting into the existing
(empty) collection _users. -/
theorem c6_witness :
    alookup dbInit.collections (asciiStr "_users") = some [] ∧
    ((db_insert dbInit (asciiStr "_users") [] (List.replicate 12 0) 5).ret
       = some (random_hex (List.replicate 12 0)) ∧
     ((List.replicate 12 0 : Bytes).length = 12 →
       (random_hex (List.replicate 12 0)).length = 24) ∧
     (∀ ch ∈ random_hex (List.replicate 12 0), is_hex_char ch) ∧
     (db_insert dbInit (asciiStr "_users") [] (List.replicate 12 0) 5).synced = true ∧
     find_one (db_insert dbInit (asciiStr "_users") [] (List.replicate 12 0) 5).state
       (asciiStr "_users") (random_hex (List.replicate 12 0))
       = some (inserted_doc [] (List.replicate 12 0) 5) ∧
     (∀ id', id' ≠ random_hex (List.replicate 12 0) →
       find_one (db_insert dbInit (asciiStr "_users") [] (List.replicate 12 0) 5).state
         (asciiStr "_users") id' = alookup ([] : Collection) id') ∧
     alookup (inserted_doc [] (List.replicate 12 0) 5) idKey
       = some (Value.vstr (random_hex (List.replicate 12 0))) ∧
     alookup (inserted_doc [] (List.replicate 12 0) 5) createdKey = some (Value.vint 5) ∧
     alookup (inserted_doc [] (List.replicate 12 0) 5) updatedKey = some (Value.vint 5)) :=
  ⟨rfl, (c6_theorem dbInit (asciiStr "_users") [] (List.replicate 12 0) 5).1 [] rfl⟩

/-- Counterexample to the freshness part of C6 as stated: in the state
c6_st the collection already holds a document whose id is exactly the
hex encoding of the drawn bytes; insert returns that id, which was
previously present, and the previously stored document is overwritten
(its old field is gone from the document now stored under that id). -/
theorem c6_counterexample :
    alookup c6_st.collections (asciiStr "c") = some c6_col ∧
    (db_insert c6_st (asciiStr "c") [] (List.replicate 12 0) 5).ret
      = some (random_hex (List.replicate 12 0)) ∧
    random_hex (List.replicate 12 0) ∈ akeys c6_col ∧
    find_one c6_st (asciiStr "c") (random_hex (List.replicate 12 0))
      = some [(asciiStr "old", Value.vint 1)] ∧
    find_one (db_insert c6_st (asciiStr "c") [] (List.replicate 12 0) 5).state (asciiStr "c")
      (random_hex (List.replicate 12 0)) = some (inserted_doc [] (List.replicate 12 0) 5) ∧
    alookup (inserted_doc [] (List.replicate 12 0) 5) (asciiStr "old") = none :=
  ⟨rfl, rfl, by decide, rfl, rfl, rfl⟩

/-- C7 (the code bug): verify_password panics instead of returning false
on a malformed stored string whose first colon-separated part has odd
length: for the stored string a:ff, hex_decode slices the two bytes at
positions 0 and 1 of the one-byte part a, which is out of bounds.  This
holds for every password. -/
theorem c7_theorem (password : Str) :
    verify_password password (asciiStr "a:ff") = Except.error () := rfl

/-- C8 (amended): load ignores the persisted file, leaving the store in
its prior (bootstrap) state without an error, exactly when the file is
shorter than 14 bytes (the 13-byte header plus at least one ciphertext
byte) or its version byte differs from 1; otherwise it decrypts the
remainder with the derived key and the embedded nonce, deserializes the
result and runs the system-default migrations. -/
theorem c8_theorem (key file sidBytes : Bytes) (st : DBState) :
    (file.length < 14 ∨ file.getD 0 0 ≠ 1 → db_load key file sidBytes st = some st) ∧
    (14 ≤ file.length → file.getD 0 0 = 1 →
      db_load key file sidBytes st
        = (db_deserialize st (chacha20 key ((file.drop 1).take 12) (file.drop 13))).map
            (fun st1 => migrate_system_defaults st1 sidBytes)) := by
  constructor
  · intro h
    unfold db_load
    rw [if_pos h]
  · intro h1 h2
    unfold db_load
    rw [if_neg]
    push_neg
    exact ⟨by omega, h2⟩

/-- Witness for C8 at a 13-byte version-1 file: the load is ignored. -/
theorem c8_witness :
    (c8_file13.length < 14 ∨ c8_file13.getD 0 0 ≠ 1) ∧
    db_load c8_key c8_file13 [] dbInit = some dbInit :=
  ⟨by decide, (c8_theorem c8_key c8_file13 [] dbInit).1 (by decide)⟩

/-- Counterexample to C8 as stated: the claim reads the header size as 13
bytes (1 version byte plus 12 nonce bytes), so on a 13-byte version-1
file it prescribes the decrypt-and-deserialize path (load_per_spec); the
code instead requires at least 14 bytes and ignores the file.  The two
behaviors differ on c8_file13: the code leaves the state untouched, the
spec reading would decrypt an empty ciphertext and panic inside
deserialize. -/
theorem c8_counterexample :
    db_load c8_key c8_file13 [] dbInit = some dbInit ∧
    load_per_spec c8_key c8_file13 [] dbInit = none ∧
    db_load c8_key c8_file13 [] dbInit ≠ load_per_spec c8_key c8_file13 [] dbInit := by
  have h1 : db_load c8_key c8_file13 [] dbInit = some dbInit := rfl
  have h2 : load_per_spec c8_key c8_file13 [] dbInit = none := by
    simp [load_per_spec, c8_file13, chacha20, chacha20_from, db_deserialize, read_u32]
  exact ⟨h1, h2, by rw [h1, h2]; simp⟩

theorem chacha20_from_nil (key nonce : Bytes) (i : Nat) :
    chacha20_from key nonce i [] = [] := by
  simp [chacha20_from]

theorem chacha20_from_cons (key nonce : Bytes) (i b : Nat) (rest : Bytes) :
    chacha20_from key nonce i (b :: rest)
      = List.zipWith Nat.xor ((b :: rest).take 64) (chacha20_block key (i % 2 ^ 32) nonce)
        ++ chacha20_from key nonce (i + 1) ((b :: rest).drop 64) := by
  simp [chacha20_from]

theorem chacha20_block_length (key : Bytes) (c : Nat) (nonce : Bytes) :
    (chacha20_block key c nonce).length = 64 := by
  simp [chacha20_block, block_out, u32le]

theorem zipWith_xor_cancel (a : Bytes) : ∀ b : Bytes, a.length ≤ b.length →
    List.zipWith Nat.xor (List.zipWith Nat.xor a b) b = a := by
  induction a with
  | nil => intro b _; simp
  | cons x xs ih =>
    intro b h
    cases b with
    | nil => simp at h
    | cons y ys =>
      simp only [List.zipWith_cons_cons, ih ys (by simpa using h)]
      congr 1
      exact Nat.xor_cancel_right y x


theorem chacha20_from_ne_nil (key nonce : Bytes) (i : Nat) (d : Bytes) (h : d ≠ []) :
    chacha20_from key nonce i d
      = List.zipWith Nat.xor (d.take 64) (chacha20_block key (i % 2 ^ 32) nonce)
        ++ chacha20_from key nonce (i + 1) (d.drop 64) := by
  cases d with
  | nil => exact absurd rfl h
  | cons b rest => exact chacha20_from_cons key nonce i b rest

theorem chacha20_from_involutive (key nonce : Bytes) :
    ∀ n : Nat, ∀ d : Bytes, d.length ≤ n → ∀ i : Nat,
      chacha20_from key nonce i (chacha20_from key nonce i d) = d := by
  intro n
  induction n with
  | zero =>
    intro d hd i
    have hnil : d = [] := List.eq_nil_of_length_eq_zero (Nat.le_zero.mp hd)
    subst hnil
    simp [chacha20_from_nil]
  | succ n ih =>
    intro d hd i
    by_cases hdnil : d = []
    · subst hdnil
      simp [chacha20_from_nil]
    · have hdpos : 0 < d.length := List.length_pos.mpr hdnil
      have hks : (chacha20_block key (i % 2 ^ 32) nonce).length = 64 :=
        chacha20_block_length key _ nonce
      have htlen : (d.take 64).length = min 64 d.length := by
        rw [List.length_take]
      have hElen : (List.zipWith Nat.xor (d.take 64)
          (chacha20_block key (i % 2 ^ 32) nonce)).length = min 64 d.length := by
        rw [List.length_zipWith, hks, htlen]
        omega
      have hEne : List.zipWith Nat.xor (d.take 64)
          (chacha20_block key (i % 2 ^ 32) nonce) ≠ [] := by
        intro hB
        rw [hB] at hElen
        simp at hElen
        omega
      rw [chacha20_from_ne_nil key nonce i d hdnil,
        chacha20_from_ne_nil key nonce i _
          (fun hB => hEne (List.append_eq_nil.mp hB).1)]
      by_cases hsmall : d.length ≤ 64
      · have hdrop : d.drop 64 = [] := List.drop_eq_nil_of_le hsmall
        rw [hdrop, chacha20_from_nil, List.append_nil]
        have hEle : (List.zipWith Nat.xor (d.take 64)
            (chacha20_block key (i % 2 ^ 32) nonce)).length ≤ 64 := by omega
        rw [List.take_of_length_le hEle, List.drop_eq_nil_of_le hEle, chacha20_from_nil,
          List.append_nil]
        rw [zipWith_xor_cancel _ _ (by rw [htlen, hks]; omega)]
        exact List.take_of_length_le hsmall
      · have hE64 : (List.zipWith Nat.xor (d.take 64)
            (chacha20_block key (i % 2 ^ 32) nonce)).length = 64 := by omega
        rw [List.take_append_eq_append_take, hE64, List.take_of_length_le (le_of_eq hE64),
          Nat.sub_self, List.take_zero, List.append_nil]
        rw [List.drop_append_eq_append_drop, hE64, List.drop_eq_nil_of_le (le_of_eq hE64),
          Nat.sub_self, List.drop_zero, List.nil_append]
        rw [zipWith_xor_cancel _ _ (by rw [htlen, hks]; omega)]
        have hdroplen : (d.drop 64).length ≤ n := by
          rw [List.length_drop]
          omega
        rw [ih (d.drop 64) hdroplen (i + 1)]
        exact List.take_append_drop 64 d

/-- C5: for every 32-byte key, 12-byte nonce and byte string, applying
chacha20 twice under the same key and nonce (block counter starting at 0)
returns the original data: the stream cipher is self-inverse. -/
theorem c5_theorem (key nonce data : Bytes) (_hk : key.length = 32) (_hn : nonce.length = 12) :
    chacha20 key nonce (chacha20 key nonce data) = data := by
  unfold chacha20
  exact chacha20_from_involutive key nonce data.length data le_rfl 0

/-- Witness for C5 at a concrete 32-byte key, 12-byte nonce and 3-byte
message. -/
theorem c5_witness :
    (List.replicate 32 7 : Bytes).length = 32 ∧
    (List.replicate 12 9 : Bytes).length = 12 ∧
    chacha20 (List.replicate 32 7) (List.replicate 12 9)
      (chacha20 (List.replicate 32 7) (List.replicate 12 9) [1, 2, 3]) = [1, 2, 3] :=
  ⟨by decide, by decide, c5_theorem _ _ _ (by decide) (by decide)⟩

theorem create_internal_inv (st : DBState) (n : Str) (f : Schema) :
    (keys_sub st → keys_sub (create_collection_internal st n f)) ∧
    (settings_tracked st → settings_tracked (create_collection_internal st n f)) ∧
    (keys_eq st → keys_eq (create_collection_internal st n f)) := by
  refine ⟨?_, ?_, ?_⟩
  · intro h k hk
    rw [create_collection_internal] at hk ⊢
    simp only [mem_akeys_ainsert] at hk ⊢
    rcases hk with hk | hk
    · exact Or.inl hk
    · exact Or.inr (h k hk)
  · intro h
    rw [settings_tracked] at h ⊢
    rw [create_collection_internal]
    simp only [mem_akeys_ainsert]
    exact Or.inr h
  · intro h k
    rw [create_collection_internal]
    simp only [mem_akeys_ainsert]
    rw [h k]

theorem value_touch_inv (st : DBState) (c : Str) (col' : Collection)
    (hc : (alookup st.collections c).isSome) :
    (keys_sub st → keys_sub ⟨ainsert st.collections c col', st.schemas⟩) ∧
    (settings_tracked st → settings_tracked ⟨ainsert st.collections c col', st.schemas⟩) ∧
    (keys_eq st → keys_eq ⟨ainsert st.collections c col', st.schemas⟩) := by
  have hmem : ∀ k, k ∈ akeys (ainsert st.collections c col') ↔ k ∈ akeys st.collections := by
    intro k
    rw [mem_akeys_ainsert]
    constructor
    · rintro (h | h)
      · subst h
        exact (mem_akeys_iff _ _).mpr hc
      · exact h
    · exact Or.inr
  refine ⟨?_, ?_, ?_⟩
  · intro h k hk
    exact (hmem k).mpr (h k hk)
  · intro h
    exact h
  · intro h k
    rw [hmem k]
    exact h k

theorem db_insert_inv (st : DBState) (c : Str) (doc : Document) (idB : Bytes) (t : Int) :
    (keys_sub st → keys_sub (db_insert st c doc idB t).state) ∧
    (settings_tracked st → settings_tracked (db_insert st c doc idB t).state) ∧
    (keys_eq st → keys_eq (db_insert st c doc idB t).state) := by
  cases hcol : alookup st.collections c with
  | none => simp only [db_insert, hcol]; exact ⟨fun h => h, fun h => h, fun h => h⟩
  | some col =>
    have hstate : (db_insert st c doc idB t).state
        = ⟨ainsert st.collections c (ainsert col (random_hex idB) (inserted_doc doc idB t)),
           st.schemas⟩ := by
      simp [db_insert, hcol, inserted_doc]
    rw [hstate]
    exact value_touch_inv st c _ (by rw [hcol]; rfl)

theorem db_update_inv (st : DBState) (c id : Str) (updates : Document) (t : Int) :
    (keys_sub st → keys_sub (db_update st c id updates t).state) ∧
    (settings_tracked st → settings_tracked (db_update st c id updates t).state) ∧
    (keys_eq st → keys_eq (db_update st c id updates t).state) := by
  cases hcol : alookup st.collections c with
  | none => simp only [db_update, hcol]; exact ⟨fun h => h, fun h => h, fun h => h⟩
  | some col =>
    cases hdoc : alookup col id with
    | none => simp only [db_update, hcol, hdoc]; exact ⟨fun h => h, fun h => h, fun h => h⟩
    | some doc =>
      have hstate : (db_update st c id updates t).state
          = ⟨ainsert st.collections c (ainsert col id (updated_doc doc updates t)),
             st.schemas⟩ := by
        simp [db_update, hcol, hdoc, updated_doc]
      rw [hstate]
      exact value_touch_inv st c _ (by rw [hcol]; rfl)

theorem db_delete_inv (st : DBState) (c id : Str) :
    (keys_sub st → keys_sub (db_delete st c id).state) ∧
    (settings_tracked st → settings_tracked (db_delete st c id).state) ∧
    (keys_eq st → keys_eq (db_delete st c id).state) := by
  cases hcol : alookup st.collections c with
  | none => simp only [db_delete, hcol]; exact ⟨fun h => h, fun h => h, fun h => h⟩
  | some col =>
    cases hdoc : alookup col id with
    | none => simp only [db_delete, hcol, hdoc]; exact ⟨fun h => h, fun h => h, fun h => h⟩
    | some doc =>
      have hstate : (db_delete st c id).state
          = ⟨ainsert st.collections c (aremove col id), st.schemas⟩ := by
        simp [db_delete, hcol, hdoc]
      rw [hstate]
      exact value_touch_inv st c _ (by rw [hcol]; rfl)

theorem db_delete_collection_inv (st : DBState) (n : Str) :
    (keys_sub st → keys_sub (db_delete_collection st n).state) ∧
    (settings_tracked st → settings_tracked (db_delete_collection st n).state) ∧
    (keys_eq st → keys_eq (db_delete_collection st n).state) := by
  by_cases hn : n.head? = some 95
  · simp only [db_delete_collection, hn, if_pos]
    exact ⟨fun h => h, fun h => h, fun h => h⟩
  · have hstate : (db_delete_collection st n).state
        = ⟨aremove st.collections n, aremove st.schemas n⟩ := by
      simp [db_delete_collection, hn]
    rw [hstate]
    refine ⟨?_, ?_, ?_⟩
    · intro h k hk
      rw [mem_akeys_aremove] at hk ⊢
      exact ⟨h k hk.1, hk.2⟩
    · intro h
      rw [settings_tracked] at h ⊢
      rw [mem_akeys_aremove]
      refine ⟨h, ?_⟩
      intro hs
      apply hn
      rw [← hs]
      rfl
    · intro h k
      rw [mem_akeys_aremove, mem_akeys_aremove, h k]

theorem read_schemas_phase_inv : ∀ (n : Nat) (st : DBState) (data : Bytes) (st1 : DBState)
    (r : Bytes), read_schemas_phase n st data = some (st1, r) →
    (keys_sub st → keys_sub st1) ∧ (settings_tracked st → settings_tracked st1) := by
  intro n
  induction n with
  | zero =>
    intro st data st1 r h
    simp only [read_schemas_phase] at h
    obtain ⟨h1, _⟩ := Prod.mk.injEq .. ▸ (Option.some.injEq .. ▸ h)
    cases h
    exact ⟨fun h => h, fun h => h⟩
  | succ n ih =>
    intro st data st1 r h
    simp only [read_schemas_phase] at h
    split at h
    · exact Option.noConfusion h
    · split at h
      · exact Option.noConfusion h
      · split at h
        · exact Option.noConfusion h
        · have hrec := ih _ _ st1 r h
          exact ⟨fun hi => hrec.1 ((create_internal_inv st _ _).1 hi),
                 fun hi => hrec.2 ((create_internal_inv st _ _).2.1 hi)⟩

theorem read_collections_phase_inv : ∀ (fuel : Nat) (st : DBState) (data : Bytes)
    (st1 : DBState), read_collections_phase fuel st data = some st1 →
    st1.schemas = st.schemas ∧
    (∀ k, k ∈ akeys st.collections → k ∈ akeys st1.collections) := by
  intro fuel
  induction fuel with
  | zero =>
    intro st data st1 h
    cases data with
    | nil =>
      simp only [read_collections_phase] at h
      cases h
      exact ⟨rfl, fun k hk => hk⟩
    | cons b bs =>
      simp only [read_collections_phase] at h
      exact Option.noConfusion h
  | succ fuel ih =>
    intro st data st1 h
    cases data with
    | nil =>
      simp only [read_collections_phase] at h
      cases h
      exact ⟨rfl, fun k hk => hk⟩
    | cons b bs =>
      simp only [read_collections_phase] at h
      split at h
      · exact Option.noConfusion h
      · split at h
        · exact Option.noConfusion h
        · split at h
          · exact Option.noConfusion h
          · have hrec := ih _ _ st1 h
            refine ⟨hrec.1, ?_⟩
            intro k hk
            apply hrec.2
            simp only [mem_akeys_ainsert]
            exact Or.inr hk

theorem db_deserialize_inv (st : DBState) (data : Bytes) (st1 : DBState)
    (h : db_deserialize st data = some st1) :
    (keys_sub st → keys_sub st1) ∧ (settings_tracked st → settings_tracked st1) := by
  simp only [db_deserialize] at h
  split at h
  · exact Option.noConfusion h
  · split at h
    · exact Option.noConfusion h
    · rename_i hp
      have h1 := read_schemas_phase_inv _ _ _ _ _ hp
      have h2 := read_collections_phase_inv _ _ _ st1 h
      constructor
      · intro hi k hk
        rw [h2.1] at hk
        exact h2.2 k (h1.1 hi k hk)
      · intro hi
        have htr := h1.2 hi
        rw [settings_tracked] at htr ⊢
        rw [h2.1]
        exact htr

theorem ensure_internal_inv (st : DBState) :
    (keys_sub st → keys_sub (ensure_internal_collections st)) ∧
    (settings_tracked st → settings_tracked (ensure_internal_collections st)) ∧
    (keys_eq st → keys_eq (ensure_internal_collections st)) := by
  by_cases hp : (alookup st.schemas (asciiStr "_ports")).isSome
  · simp only [ensure_internal_collections, hp, if_pos]
    exact ⟨fun h => h, fun h => h, fun h => h⟩
  · have hstate : ensure_internal_collections st
        = ⟨ainsert st.collections (asciiStr "_ports") [],
           ainsert st.schemas (asciiStr "_ports") ports_schema⟩ := by
      simp [ensure_internal_collections, hp]
    rw [hstate]
    exact create_internal_inv st (asciiStr "_ports") ports_schema

theorem ensure_settings_inv (st : DBState) (sidB : Bytes) :
    (keys_sub st → keys_sub (ensure_settings_defaults st sidB)) ∧
    (settings_tracked st → settings_tracked (ensure_settings_defaults st sidB)) ∧
    (settings_tracked st → keys_eq st → keys_eq (ensure_settings_defaults st sidB)) := by
  have hstate : ∃ col1, ensure_settings_defaults st sidB
      = ⟨ainsert st.collections (asciiStr "_settings") col1, st.schemas⟩ := by
    rw [ensure_settings_defaults]
    by_cases hc : ((alookup st.collections (asciiStr "_settings")).getD []).isEmpty
    · rw [if_pos hc]
      exact ⟨_, rfl⟩
    · rw [if_neg hc]
      exact ⟨_, rfl⟩
  obtain ⟨col1, hstate⟩ := hstate
  rw [hstate]
  refine ⟨?_, ?_, ?_⟩
  · intro h k hk
    simp only [mem_akeys_ainsert]
    exact Or.inr (h k hk)
  · intro h
    exact h
  · intro htr heq k
    simp only [mem_akeys_ainsert]
    constructor
    · intro hk
      exact Or.inr ((heq k).mp hk)
    · rintro (hk | hk)
      · subst hk
        exact htr
      · exact (heq k).mpr hk

theorem migrate_inv (st : DBState) (sidB : Bytes) :
    (keys_sub st → keys_sub (migrate_system_defaults st sidB)) ∧
    (settings_tracked st → settings_tracked (migrate_system_defaults st sidB)) ∧
    (settings_tracked st → keys_eq st → keys_eq (migrate_system_defaults st sidB)) := by
  have h1 := ensure_internal_inv st
  have h2 := ensure_settings_inv (ensure_internal_collections st) sidB
  rw [migrate_system_defaults]
  exact ⟨fun h => h2.1 (h1.1 h), fun h => h2.2.1 (h1.2.1 h),
    fun htr heq => h2.2.2 (h1.2.1 htr) (h1.2.2 heq)⟩

theorem db_load_inv (key file sidB : Bytes) (st st1 : DBState)
    (h : db_load key file sidB st = some st1) :
    (keys_sub st → keys_sub st1) ∧ (settings_tracked st → settings_tracked st1) := by
  rw [db_load] at h
  by_cases hc : file.length < 14 ∨ file.getD 0 0 ≠ 1
  · rw [if_pos hc] at h
    cases h
    exact ⟨fun h => h, fun h => h⟩
  · rw [if_neg hc] at h
    cases hd : db_deserialize st (chacha20 key ((file.drop 1).take 12) (file.drop 13)) with
    | none => rw [hd] at h; cases h
    | some st2 =>
      rw [hd] at h
      simp only [Option.map_some'] at h
      have h1 := db_deserialize_inv st _ st2 hd
      have h2 := migrate_inv st2 sidB
      cases h
      exact ⟨fun hi => h2.1 (h1.1 hi), fun hi => h2.2.1 (h1.2 hi)⟩

theorem applyOp_inv (st st' : DBState) (op : Op) (h : applyOp st op = some st') :
    (keys_sub st → settings_tracked st → keys_sub st' ∧ settings_tracked st') ∧
    (Op.readsPersisted op = false → settings_tracked st → keys_eq st → keys_eq st') := by
  cases op with
  | opCreate n f =>
    cases h
    have hi := create_internal_inv st n f
    exact ⟨fun hs ht => ⟨hi.1 hs, hi.2.1 ht⟩, fun _ _ he => hi.2.2 he⟩
  | opInsert c d idB t =>
    cases h
    have hi := db_insert_inv st c d idB t
    exact ⟨fun hs ht => ⟨hi.1 hs, hi.2.1 ht⟩, fun _ _ he => hi.2.2 he⟩
  | opUpdate c id u t =>
    cases h
    have hi := db_update_inv st c id u t
    exact ⟨fun hs ht => ⟨hi.1 hs, hi.2.1 ht⟩, fun _ _ he => hi.2.2 he⟩
  | opDeleteDoc c id =>
    cases h
    have hi := db_delete_inv st c id
    exact ⟨fun hs ht => ⟨hi.1 hs, hi.2.1 ht⟩, fun _ _ he => hi.2.2 he⟩
  | opDeleteCollection n =>
    cases h
    have hi := db_delete_collection_inv st n
    exact ⟨fun hs ht => ⟨hi.1 hs, hi.2.1 ht⟩, fun _ _ he => hi.2.2 he⟩
  | opDeserialize data =>
    have hi := db_deserialize_inv st data st' h
    exact ⟨fun hs ht => ⟨hi.1 hs, hi.2 ht⟩, fun hfalse => by cases hfalse⟩
  | opMigrate sidB =>
    cases h
    have hi := migrate_inv st sidB
    exact ⟨fun hs ht => ⟨hi.1 hs, hi.2.1 ht⟩, fun _ ht he => hi.2.2 ht he⟩
  | opLoad key file sidB =>
    have hi := db_load_inv key file sidB st st' h
    exact ⟨fun hs ht => ⟨hi.1 hs, hi.2 ht⟩, fun hfalse => by cases hfalse⟩

theorem applyOps_inv (ops : List Op) : ∀ st st' : DBState, applyOps ops st = some st' →
    keys_sub st → settings_tracked st →
    (keys_sub st' ∧ settings_tracked st') ∧
    ((∀ op ∈ ops, Op.readsPersisted op = false) → keys_eq st → keys_eq st') := by
  induction ops with
  | nil =>
    intro st st' h hs ht
    cases h
    exact ⟨⟨hs, ht⟩, fun _ he => he⟩
  | cons op rest ih =>
    intro st st' h hs ht
    simp only [applyOps] at h
    cases hop : applyOp st op with
    | none => rw [hop] at h; exact Option.noConfusion h
    | some st1 =>
      rw [hop] at h
      have h1 := applyOp_inv st st1 op hop
      have ⟨hs1, ht1⟩ := h1.1 hs ht
      have h2 := ih st1 st' h hs1 ht1
      refine ⟨h2.1, ?_⟩
      intro hno he
      have hop_no : Op.readsPersisted op = false := hno op (List.mem_cons_self op rest)
      have hrest_no : ∀ o ∈ rest, Op.readsPersisted o = false :=
        fun o ho => hno o (List.mem_cons_of_mem op ho)
      exact h2.2 hrest_no (h1.2 hop_no ht he)

theorem dbInit_keys_eq : keys_eq dbInit := by
  have h0 : keys_eq ⟨[], []⟩ := by
    intro k
    simp [akeys]
  rw [dbInit]
  exact (create_internal_inv _ _ _).2.2 ((create_internal_inv _ _ _).2.2
    ((create_internal_inv _ _ _).2.2 ((create_internal_inv _ _ _).2.2 h0)))

theorem dbInit_settings_tracked : settings_tracked dbInit := by
  rw [settings_tracked]
  decide

/-- C4 (amended): in every state reachable from initialization by any
sequence of engine operations, the schema-map key set is a subset of the
collection-map key set; and for sequences that never read persisted bytes
back (no deserialize and no load), the two key sets are equal.  Full
equality does not survive deserialize: its collection phase creates
collections named in the input that the schema table of the input (and
the current schema map) need not contain. -/
theorem c4_theorem (ops : List Op) (st : DBState) (h : applyOps ops dbInit = some st) :
    keys_sub st ∧
    ((∀ op ∈ ops, Op.readsPersisted op = false) → keys_eq st) := by
  have hinit_eq : keys_eq dbInit := dbInit_keys_eq
  have hinit_sub : keys_sub dbInit := fun k hk => (hinit_eq k).mp hk
  have hinit_tr : settings_tracked dbInit := dbInit_settings_tracked
  have hmain := applyOps_inv ops dbInit st h hinit_sub hinit_tr
  exact ⟨hmain.1.1, fun hno => hmain.2 hno hinit_eq⟩

/-- Witness for C4 on the demonstration sequence (create, insert, delete
collection) from bootstrap. -/
theorem c4_witness :
    applyOps c4_demo_ops dbInit = some c4_demo_state ∧
    (∀ op ∈ c4_demo_ops, Op.readsPersisted op = false) ∧
    keys_sub c4_demo_state ∧ keys_eq c4_demo_state :=
  ⟨rfl, by decide,
   (c4_theorem c4_demo_ops c4_demo_state rfl).1,
   (c4_theorem c4_demo_ops c4_demo_state rfl).2 (by decide)⟩

/-- Counterexample to C4 as stated: deserializing c4_bad_data from the
bootstrap state is an engine operation sequence that reaches a state
whose collection map has the key x while its schema map does not, so the
two key sets differ. -/
theorem c4_counterexample :
    applyOps [Op.opDeserialize c4_bad_data] dbInit = some c4_bad_state ∧
    asciiStr "x" ∈ akeys c4_bad_state.collections ∧
    asciiStr "x" ∉ akeys c4_bad_state.schemas :=
  ⟨rfl, by decide, by decide⟩

theorem read_u32_u32le (n : Nat) (rest : Bytes) :
    read_u32 (u32le n ++ rest) = some (n % 2 ^ 32, rest) := by
  simp only [u32le, List.cons_append, List.nil_append, read_u32]
  congr 1
  congr 1
  omega

theorem read_u32_u32le_small (n : Nat) (rest : Bytes) (h : n < 2 ^ 32) :
    read_u32 (u32le n ++ rest) = some (n, rest) := by
  rw [read_u32_u32le, Nat.mod_eq_of_lt h]

theorem read_le8_le8 (n : Nat) (rest : Bytes) :
    read_le8 (le8 n ++ rest) = some (n % 2 ^ 64, rest) := by
  simp only [le8, List.cons_append, List.nil_append, read_le8]
  congr 1
  congr 1
  omega

theorem read_string_write_string (s : Str) (rest : Bytes) (h : s.length < 2 ^ 32) :
    read_string (write_string s ++ rest) = some (s, rest) := by
  rw [write_string, List.append_assoc, read_string, read_u32_u32le_small _ _ h]
  show (if s.length ≤ (s ++ rest).length then
    some ((s ++ rest).take s.length, (s ++ rest).drop s.length) else none) = some (s, rest)
  rw [if_pos (by simp), List.take_append_of_le_length le_rfl, List.take_of_length_le le_rfl,
    List.drop_append_eq_append_drop, List.drop_eq_nil_of_le le_rfl, Nat.sub_self,
    List.drop_zero, List.nil_append]

theorem decode_i64_emod (i : Int) (h1 : -(2 ^ 63) ≤ i) (h2 : i < 2 ^ 63) :
    decode_i64 (i.emod (2 ^ 64)).toNat = i := by
  have hmod : i.emod (2 ^ 64) = i % (2 ^ 64) := rfl
  rw [decode_i64, hmod]
  split <;> omega

theorem read_value_null (fuel : Nat) (r : Bytes) :
    read_value fuel (0 :: r) = some (Value.vnull, r) := by
  simp [read_value]

theorem read_value_bool (fuel : Nat) (b : Nat) (r : Bytes) :
    read_value fuel (1 :: b :: r) = some (Value.vbool (b != 0), r) := by
  simp [read_value]

theorem read_value_int (fuel : Nat) (r r' : Bytes) (n : Nat)
    (h : read_le8 r = some (n, r')) :
    read_value fuel (2 :: r) = some (Value.vint (decode_i64 n), r') := by
  simp [read_value, h]

theorem read_value_float (fuel : Nat) (r r' : Bytes) (n : Nat)
    (h : read_le8 r = some (n, r')) :
    read_value fuel (3 :: r) = some (Value.vfloat n, r') := by
  simp [read_value, h]

theorem read_value_str (fuel : Nat) (r r' : Bytes) (s : Str)
    (h : read_string r = some (s, r')) :
    read_value fuel (4 :: r) = some (Value.vstr s, r') := by
  simp [read_value, h]

theorem read_value_arr (fuel : Nat) (r r1 r2 : Bytes) (count : Nat) (vs : List Value)
    (h1 : read_u32 r = some (count, r1)) (h2 : read_values fuel count r1 = some (vs, r2)) :
    read_value (fuel + 1) (5 :: r) = some (Value.varr vs, r2) := by
  simp [read_value, h1, h2]

theorem read_value_obj (fuel : Nat) (r r1 r2 : Bytes) (count : Nat)
    (ps : List (Str × Value))
    (h1 : read_u32 r = some (count, r1)) (h2 : read_pairs fuel count r1 = some (ps, r2)) :
    read_value (fuel + 1) (6 :: r) = some (Value.vobj ps, r2) := by
  simp [read_value, h1, h2]

theorem read_values_zero (fuel : Nat) (data : Bytes) :
    read_values fuel 0 data = some ([], data) := by
  simp [read_values]

theorem read_values_succ_of (fuel count : Nat) (data r1 r2 : Bytes) (v : Value)
    (vs : List Value)
    (h1 : read_value fuel data = some (v, r1)) (h2 : read_values fuel count r1 = some (vs, r2)) :
    read_values fuel (count + 1) data = some (v :: vs, r2) := by
  simp [read_values, h1, h2]

theorem read_pairs_zero (fuel : Nat) (data : Bytes) :
    read_pairs fuel 0 data = some ([], data) := by
  simp [read_pairs]

theorem read_pairs_succ_of (fuel count : Nat) (data r1 r2 r3 : Bytes) (k : Str) (v : Value)
    (ps : List (Str × Value))
    (h1 : read_string data = some (k, r1)) (h2 : read_value fuel r1 = some (v, r2))
    (h3 : read_pairs fuel count r2 = some (ps, r3)) :
    read_pairs fuel (count + 1) data = some ((k, v) :: ps, r3) := by
  simp [read_pairs, h1, h2, h3]

theorem write_values_nil : write_values [] = [] := by simp [write_values]

theorem write_values_cons (v : Value) (vs : List Value) :
    write_values (v :: vs) = write_value v ++ write_values vs := by simp [write_values]

theorem write_pairs_nil : write_pairs [] = [] := by simp [write_pairs]

theorem write_pairs_cons (k : Str) (v : Value) (ps : List (Str × Value)) :
    write_pairs ((k, v) :: ps) = write_string k ++ write_value v ++ write_pairs ps := by
  simp [write_pairs]

theorem wf_values_cons (v : Value) (vs : List Value) :
    wf_values (v :: vs) ↔ wf_value v ∧ wf_values vs := by simp [wf_values]

theorem wf_pairs_cons (k : Str) (v : Value) (ps : List (Str × Value)) :
    wf_pairs ((k, v) :: ps) ↔ k.length < 2 ^ 32 ∧ wf_value v ∧ wf_pairs ps := by
  simp [wf_pairs]

theorem depth_values_nil : depth_values [] = 0 := by simp [depth_values]

theorem depth_values_cons (v : Value) (vs : List Value) :
    depth_values (v :: vs) = max (depth_value v) (depth_values vs) := by simp [depth_values]

theorem depth_pairs_nil : depth_pairs [] = 0 := by simp [depth_pairs]

theorem depth_pairs_cons (k : Str) (v : Value) (ps : List (Str × Value)) :
    depth_pairs ((k, v) :: ps) = max (depth_value v) (depth_pairs ps) := by simp [depth_pairs]

theorem read_write_value : ∀ N : Nat, ∀ v : Value, sizeOf v ≤ N →
    ∀ fuel : Nat, ∀ rest : Bytes, wf_value v → depth_value v ≤ fuel →
    read_value fuel (write_value v ++ rest) = some (v, rest) := by
  intro N
  induction N with
  | zero =>
    intro v hv
    cases v <;> simp_arith at hv
  | succ N ih =>
    have harr : ∀ l : List Value, (∀ v' ∈ l, sizeOf v' ≤ N) → wf_values l →
        ∀ f : Nat, depth_values l ≤ f → ∀ rest' : Bytes,
        read_values f l.length (write_values l ++ rest') = some (l, rest') := by
      intro l
      induction l with
      | nil =>
        intro _ _ f _ rest'
        rw [write_values_nil, List.nil_append, List.length_nil, read_values_zero]
      | cons v' vs ihl =>
        intro hsz hwf f hdep rest'
        rw [write_values_cons, List.append_assoc, List.length_cons]
        rw [depth_values_cons] at hdep
        rw [wf_values_cons] at hwf
        exact read_values_succ_of f vs.length _ _ _ v' vs
          (ih v' (hsz v' (List.mem_cons_self v' vs)) f _ hwf.1 (by omega))
          (ihl (fun u hu => hsz u (List.mem_cons_of_mem v' hu)) hwf.2 f (by omega) rest')
    have hpairs : ∀ l : List (Str × Value), (∀ p ∈ l, sizeOf p.2 ≤ N) → wf_pairs l →
        ∀ f : Nat, depth_pairs l ≤ f → ∀ rest' : Bytes,
        read_pairs f l.length (write_pairs l ++ rest') = some (l, rest') := by
      intro l
      induction l with
      | nil =>
        intro _ _ f _ rest'
        rw [write_pairs_nil, List.nil_append, List.length_nil, read_pairs_zero]
      | cons p ps ihl =>
        intro hsz hwf f hdep rest'
        obtain ⟨k, v'⟩ := p
        rw [write_pairs_cons, List.append_assoc, List.append_assoc, List.length_cons]
        rw [depth_pairs_cons] at hdep
        rw [wf_pairs_cons] at hwf
        exact read_pairs_succ_of f ps.length _ _ _ _ k v' ps
          (read_string_write_string k _ hwf.1)
          (ih v' (hsz (k, v') (List.mem_cons_self _ ps)) f _ hwf.2.1 (by omega))
          (ihl (fun u hu => hsz u (List.mem_cons_of_mem _ hu)) hwf.2.2 f (by omega) rest')
    intro v hv fuel rest hwf hdep
    cases v with
    | vnull =>
      rw [show write_value Value.vnull = [0] from by simp [write_value], List.cons_append,
        List.nil_append, read_value_null]
    | vbool b =>
      rw [show write_value (Value.vbool b) = [1, if b then 1 else 0] from by simp [write_value]]
      rw [List.cons_append, List.cons_append, List.nil_append, read_value_bool]
      cases b <;> simp
    | vint i =>
      rw [show write_value (Value.vint i) = 2 :: i64le i from by simp [write_value],
        List.cons_append, i64le]
      rw [wf_value] at hwf
      have hlt : (i.emod (2 ^ 64)).toNat < 2 ^ 64 := by
        have h0 : 0 ≤ i.emod (2 ^ 64) := Int.emod_nonneg i (by norm_num)
        have h1 : i.emod (2 ^ 64) < 2 ^ 64 := Int.emod_lt_of_pos i (by norm_num)
        omega
      rw [read_value_int fuel _ rest _ (by rw [read_le8_le8, Nat.mod_eq_of_lt hlt])]
      rw [decode_i64_emod i hwf.1 hwf.2]
    | vfloat bits =>
      rw [show write_value (Value.vfloat bits) = 3 :: le8 bits from by simp [write_value],
        List.cons_append]
      rw [wf_value] at hwf
      rw [read_value_float fuel _ rest _ (by rw [read_le8_le8, Nat.mod_eq_of_lt hwf])]
    | vstr s =>
      rw [show write_value (Value.vstr s) = 4 :: write_string s from by simp [write_value],
        List.cons_append]
      rw [wf_value] at hwf
      rw [read_value_str fuel _ rest _ (read_string_write_string s rest hwf)]
    | varr a =>
      rw [show write_value (Value.varr a) = 5 :: (u32le a.length ++ write_values a) from by
        simp [write_value], List.cons_append, List.append_assoc]
      rw [wf_value] at hwf
      rw [show depth_value (Value.varr a) = depth_values a + 1 from by simp [depth_value]] at hdep
      cases fuel with
      | zero => omega
      | succ f =>
        have hsza : ∀ v' ∈ a, sizeOf v' ≤ N := by
          intro v' hv'
          have h1 := List.sizeOf_lt_of_mem hv'
          have h2 : sizeOf (Value.varr a) = 1 + sizeOf a := by simp
          omega
        exact read_value_arr f _ _ _ a.length a
          (read_u32_u32le_small a.length _ hwf.1)
          (harr a hsza hwf.2 f (by omega) rest)
    | vobj o =>
      rw [show write_value (Value.vobj o) = 6 :: (u32le o.length ++ write_pairs o) from by
        simp [write_value], List.cons_append, List.append_assoc]
      rw [wf_value] at hwf
      rw [show depth_value (Value.vobj o) = depth_pairs o + 1 from by simp [depth_value]] at hdep
      cases fuel with
      | zero => omega
      | succ f =>
        have hszo : ∀ p ∈ o, sizeOf p.2 ≤ N := by
          intro p hp
          obtain ⟨k, v'⟩ := p
          show sizeOf v' ≤ N
          have h1 := List.sizeOf_lt_of_mem hp
          have h2 : sizeOf (Value.vobj o) = 1 + sizeOf o := by simp
          have h3 : sizeOf (k, v') = 1 + sizeOf k + sizeOf v' := by simp
          simp only [h3] at h1
          simp only [h2] at hv
          omega
        exact read_value_obj f _ _ _ o.length o
          (read_u32_u32le_small o.length _ hwf.1)
          (hpairs o hszo hwf.2 f (by omega) rest)

theorem read_pairs_write_pairs (l : List (Str × Value)) : ∀ f : Nat, ∀ rest : Bytes,
    wf_pairs l → depth_pairs l ≤ f →
    read_pairs f l.length (write_pairs l ++ rest) = some (l, rest) := by
  induction l with
  | nil =>
    intro f rest _ _
    rw [write_pairs_nil, List.nil_append, List.length_nil, read_pairs_zero]
  | cons p ps ihl =>
    intro f rest hwf hdep
    obtain ⟨k, v⟩ := p
    rw [write_pairs_cons, List.append_assoc, List.append_assoc, List.length_cons]
    rw [depth_pairs_cons] at hdep
    rw [wf_pairs_cons] at hwf
    exact read_pairs_succ_of f ps.length _ _ _ _ k v ps
      (read_string_write_string k _ hwf.1)
      (read_write_value (sizeOf v) v le_rfl f _ hwf.2.1 (by omega))
      (ihl f rest hwf.2.2 (by omega))

theorem read_doc_eq (fuel : Nat) (data rest : Bytes) (count : Nat)
    (h : read_u32 data = some (count, rest)) :
    read_doc fuel data = read_pairs fuel count rest := by
  simp [read_doc, h]

theorem read_doc_write_doc (d : Document) (f : Nat) (rest : Bytes)
    (hwf : wf_doc d) (hdep : depth_pairs d ≤ f) :
    read_doc f (write_doc d ++ rest) = some (d, rest) := by
  obtain ⟨h1, h2⟩ := hwf
  rw [write_doc, List.append_assoc,
    read_doc_eq f _ _ d.length (read_u32_u32le_small d.length _ h1)]
  exact read_pairs_write_pairs d f rest h2 hdep

theorem depth_value_le_write : ∀ N : Nat, ∀ v : Value, sizeOf v ≤ N →
    depth_value v ≤ (write_value v).length := by
  intro N
  induction N with
  | zero =>
    intro v hv
    cases v <;> simp_arith at hv
  | succ N ih =>
    have harr : ∀ l : List Value, (∀ v' ∈ l, sizeOf v' ≤ N) →
        depth_values l ≤ (write_values l).length := by
      intro l
      induction l with
      | nil => intro _; rw [depth_values_nil]; exact Nat.zero_le _
      | cons v' vs ihl =>
        intro hsz
        rw [depth_values_cons, write_values_cons, List.length_append]
        have h1 := ih v' (hsz v' (List.mem_cons_self v' vs))
        have h2 := ihl fun u hu => hsz u (List.mem_cons_of_mem v' hu)
        omega
    have hpairs : ∀ l : List (Str × Value), (∀ p ∈ l, sizeOf p.2 ≤ N) →
        depth_pairs l ≤ (write_pairs l).length := by
      intro l
      induction l with
      | nil => intro _; rw [depth_pairs_nil]; exact Nat.zero_le _
      | cons p ps ihl =>
        intro hsz
        obtain ⟨k, v'⟩ := p
        rw [depth_pairs_cons, write_pairs_cons, List.length_append, List.length_append]
        have h1 := ih v' (hsz (k, v') (List.mem_cons_self _ ps))
        have h2 := ihl fun u hu => hsz u (List.mem_cons_of_mem _ hu)
        omega
    intro v hv
    cases v with
    | vnull => rw [show depth_value Value.vnull = 0 from by simp [depth_value]]; exact Nat.zero_le _
    | vbool b =>
      rw [show depth_value (Value.vbool b) = 0 from by simp [depth_value]]
      exact Nat.zero_le _
    | vint i =>
      rw [show depth_value (Value.vint i) = 0 from by simp [depth_value]]
      exact Nat.zero_le _
    | vfloat bits =>
      rw [show depth_value (Value.vfloat bits) = 0 from by simp [depth_value]]
      exact Nat.zero_le _
    | vstr s =>
      rw [show depth_value (Value.vstr s) = 0 from by simp [depth_value]]
      exact Nat.zero_le _
    | varr a =>
      rw [show depth_value (Value.varr a) = depth_values a + 1 from by simp [depth_value],
        show write_value (Value.varr a) = 5 :: (u32le a.length ++ write_values a) from by
          simp [write_value]]
      have hsza : ∀ v' ∈ a, sizeOf v' ≤ N := by
        intro v' hv'
        have h1 := List.sizeOf_lt_of_mem hv'
        have h2 : sizeOf (Value.varr a) = 1 + sizeOf a := by simp
        omega
      have := harr a hsza
      simp only [List.length_cons, List.length_append, u32le, List.length_cons, List.length_nil]
      omega
    | vobj o =>
      rw [show depth_value (Value.vobj o) = depth_pairs o + 1 from by simp [depth_value],
        show write_value (Value.vobj o) = 6 :: (u32le o.length ++ write_pairs o) from by
          simp [write_value]]
      have hszo : ∀ p ∈ o, sizeOf p.2 ≤ N := by
        intro p hp
        obtain ⟨k, v'⟩ := p
        show sizeOf v' ≤ N
        have h1 := List.sizeOf_lt_of_mem hp
        have h2 : sizeOf (Value.vobj o) = 1 + sizeOf o := by simp
        have h3 : sizeOf (k, v') = 1 + sizeOf k + sizeOf v' := by simp
        simp only [h3] at h1
        simp only [h2] at hv
        omega
      have := hpairs o hszo
      simp only [List.length_cons, List.length_append, u32le, List.length_cons, List.length_nil]
      omega

theorem depth_pairs_le_write (l : List (Str × Value)) :
    depth_pairs l ≤ (write_pairs l).length := by
  induction l with
  | nil => rw [depth_pairs_nil]; exact Nat.zero_le _
  | cons p ps ihl =>
    obtain ⟨k, v⟩ := p
    rw [depth_pairs_cons, write_pairs_cons, List.length_append, List.length_append]
    have h1 := depth_value_le_write (sizeOf v) v le_rfl
    omega

/-- C2 (amended): encoding a Document with the binary codec and decoding
the resulting buffer returns exactly the original document, for every
document whose Int values are in the i64 range and Float bit patterns in
the u64 range (enforced by the Rust types) and whose every string length,
array length, and document or object entry count is below 2 to the 32
(NOT enforced by the Rust types: the codec writes every length as a
truncated u32, so the round trip fails beyond that bound). -/
theorem c2_theorem (d : Document) (h : wf_doc d) : decode_doc (write_doc d) = some (d, []) := by
  rw [decode_doc]
  have hd : depth_pairs d ≤ (write_doc d).length + 1 := by
    have h1 := depth_pairs_le_write d
    rw [write_doc, List.length_append]
    omega
  have := read_doc_write_doc d ((write_doc d).length + 1) [] h hd
  rwa [List.append_nil] at this

/-- Witness for C2 on a small document exercising every Value
constructor, including a nested object inside an array. -/
theorem c2_witness :
    wf_doc c2_demo_doc ∧ decode_doc (write_doc c2_demo_doc) = some (c2_demo_doc, []) := by
  have hwf : wf_doc c2_demo_doc := by
    refine ⟨by decide, ?_⟩
    simp only [c2_demo_doc, wf_pairs_cons, wf_value, wf_values_cons, wf_values, wf_pairs]
    and_intros <;> trivial
  exact ⟨hwf, c2_theorem c2_demo_doc hwf⟩

/-- Counterexample to C2 as stated: for the document holding a string of
length 2 to the 32, the u32 length prefix truncates to 0, so decoding the
encoded buffer returns a document whose string is empty, not the
original. -/
theorem write_value_str_eq (s : Str) : write_value (Value.vstr s) = 4 :: write_string s := by
  simp [write_value]

theorem c2_counterexample : decode_doc (write_doc c2_big_doc) ≠ some (c2_big_doc, []) := by
  have hbig : (List.replicate (2 ^ 32) 97 : Bytes).length = 2 ^ 32 :=
    List.length_replicate _ _
  have hws : write_string (List.replicate (2 ^ 32) 97)
      = u32le (2 ^ 32) ++ List.replicate (2 ^ 32) 97 := by
    rw [write_string, hbig]
  have hwv : write_value (Value.vstr (List.replicate (2 ^ 32) 97))
      = 4 :: (u32le (2 ^ 32) ++ List.replicate (2 ^ 32) 97) := by
    rw [write_value_str_eq, hws]
  have hwp : write_pairs c2_big_doc
      = write_string (asciiStr "k") ++ (4 :: (u32le (2 ^ 32) ++ List.replicate (2 ^ 32) 97)) := by
    rw [c2_big_doc, write_pairs_cons, write_pairs_nil, List.append_nil, hwv]
  have hwd : write_doc c2_big_doc
      = u32le 1 ++ (write_string (asciiStr "k")
          ++ (4 :: (u32le (2 ^ 32) ++ List.replicate (2 ^ 32) 97))) := by
    rw [write_doc, show List.length c2_big_doc = 1 from rfl, hwp]
  have hrs0 : read_string (u32le (2 ^ 32) ++ (List.replicate (2 ^ 32) 97 : Bytes))
      = some ([], List.replicate (2 ^ 32) 97) := by
    rw [read_string, read_u32_u32le, Nat.mod_self]
    show (if 0 ≤ (List.replicate (2 ^ 32) 97 : Bytes).length then
        some ((List.replicate (2 ^ 32) 97 : Bytes).take 0,
          (List.replicate (2 ^ 32) 97 : Bytes).drop 0) else none)
      = some ([], List.replicate (2 ^ 32) 97)
    rw [if_pos (Nat.zero_le _), List.take_zero, List.drop_zero]
  have hdec : decode_doc (write_doc c2_big_doc)
      = some ([(asciiStr "k", Value.vstr [])], List.replicate (2 ^ 32) 97) := by
    rw [decode_doc, hwd]
    rw [read_doc_eq _ _ _ 1 (read_u32_u32le_small 1 _ (by norm_num))]
    rw [show (1 : Nat) = 0 + 1 from rfl]
    exact read_pairs_succ_of _ 0 _ _ _ _ (asciiStr "k") (Value.vstr []) []
      (read_string_write_string _ _ (by decide)) (read_value_str _ _ _ _ hrs0)
      (read_pairs_zero _ _)
  intro hcontra
  rw [hdec] at hcontra
  have h := Option.some.inj hcontra
  have h2 : (List.replicate (2 ^ 32) 97 : Bytes) = [] := congrArg Prod.snd h
  have h3 := congrArg List.length h2
  rw [hbig, List.length_nil] at h3
  exact absurd h3 (by norm_num)
